import Mathlib

set_option linter.unusedVariables false

/-!
Verification of the Synapse pipeline (Twitter bookmarks/likes → Obsidian vault
with AI categorization) against its natural-language specification.

The JavaScript sources (`src/gemini.js`, `src/state.js`, `src/obsidian.js`,
`src/bird.js`, `src/likes.js`, `src/organize.js`, `config.js`) are shallowly
embedded below.  Conventions of the embedding:

* JS strings are Lean `String`s; all string operations used by the code
  (trim, startsWith, slice, regex replacements …) are implemented structurally
  over `String.data` so that every definition is executable and kernel-reducible.
* `JSON.parse` is implemented as a fuel-based parser `jsonParse` into the
  inductive `Json` type; number lexemes are kept as their source text (no claim
  inspects numeric values).  `JSON.stringify ∘ JSON.parse` round-trips at the
  `Json`-value level, so persisted files carry `Json` values.
* Fallible JS code (`try`/`catch`, `throw`) is modeled with `Option`/`Except`.
* The filesystem is explicit state (`World` for the sync pipeline, `OVault`
  for the organizer) threaded through the effectful functions.
* External collaborators (the `bird` subprocess, the Gemini oracle, `Date`)
  are inputs: the subprocess outcome, the raw oracle reply text, and the
  current timestamp are parameters.
-/

namespace Synapse

/-! ## JS character and string primitives -/

/-- Double-quote character. -/
def qc : Char := Char.ofNat 34

/-- Single-quote (apostrophe) character. -/
def sq : Char := Char.ofNat 39

/-- Backslash character. -/
def bs : Char := Char.ofNat 92

/-- Opening curly brace character. -/
def lcurl : Char := Char.ofNat 123

/-- Closing curly brace character. -/
def rcurl : Char := Char.ofNat 125

/-- Whitespace as recognized by JS `String.prototype.trim` and the regex
class `\s` (ASCII part plus NBSP and BOM; the exotic Unicode spaces are not
produced by any data in this pipeline). -/
def isJsWs (c : Char) : Bool :=
  c.toNat = 9 ∨ c.toNat = 10 ∨ c.toNat = 11 ∨ c.toNat = 12 ∨ c.toNat = 13 ∨
  c.toNat = 32 ∨ c.toNat = 160 ∨ c.toNat = 65279

/-- Drop leading JS whitespace from a character list. -/
def dropWsL : List Char → List Char
  | [] => []
  | c :: r => if isJsWs c then dropWsL r else c :: r

/-- JS `String.prototype.trim`. -/
def jsTrim (s : String) : String :=
  ⟨(dropWsL (dropWsL s.data.reverse).reverse)⟩

/-- Whether `p` is a leading segment of `s` (character lists). -/
def isLeadOf : List Char → List Char → Bool
  | [], _ => true
  | _ :: _, [] => false
  | p :: ps, c :: cs => p = c ∧ isLeadOf ps cs

/-- JS `String.prototype.startsWith`. -/
def jsStartsWith (s pre : String) : Bool := isLeadOf pre.data s.data

/-- Whether `suf` is a trailing segment of `s` (JS `endsWith`). -/
def jsEndsWith (s suf : String) : Bool := isLeadOf suf.data.reverse s.data.reverse

/-- JS `String.prototype.slice(0, n)` / `take`. -/
def jsTake (s : String) (n : Nat) : String := ⟨s.data.take n⟩

/-- Drop the first `n` characters of a string. -/
def jsDrop (s : String) (n : Nat) : String := ⟨s.data.drop n⟩

/-- Number of characters of a JS string (`.length`; all data in this pipeline
is in the basic multilingual plane, where UTF-16 length = character count). -/
def jsLen (s : String) : Nat := s.data.length

/-- Split a character list on a separator character. -/
def splitOnChar (sep : Char) : List Char → List (List Char)
  | [] => [[]]
  | c :: r =>
    let rest := splitOnChar sep r
    if c = sep then [] :: rest
    else match rest with
      | [] => [[c]]
      | h :: t => (c :: h) :: t

/-- Split a string into its `\n`-separated lines (JS `split('\n')`). -/
def jsLines (s : String) : List String := (splitOnChar '\n' s.data).map (⟨·⟩)

/-! ## JSON values and `JSON.parse` -/

/-- The result of `JSON.parse`: JSON values.  Number lexemes are kept as their
source text — no code in this repository inspects a numeric value. -/
inductive Json where
  | null : Json
  | bool (b : Bool) : Json
  | num (lexeme : String) : Json
  | str (s : String) : Json
  | arr (elems : List Json) : Json
  | obj (fields : List (String × Json)) : Json

mutual

/-- Structural equality of JSON values; on the values reachable in this
pipeline it coincides with JS `SameValueZero` (the equivalence used by
`Set` membership). -/
def jsonBeq : Json → Json → Bool
  | .null, .null => true
  | .bool a, .bool b => a == b
  | .num a, .num b => a == b
  | .str a, .str b => a == b
  | .arr xs, .arr ys => jsonBeqL xs ys
  | .obj xs, .obj ys => jsonBeqF xs ys
  | _, _ => false

/-- Elementwise `jsonBeq` on lists. -/
def jsonBeqL : List Json → List Json → Bool
  | [], [] => true
  | x :: xs, y :: ys => jsonBeq x y && jsonBeqL xs ys
  | _, _ => false

/-- Elementwise `jsonBeq` on object field lists. -/
def jsonBeqF : List (String × Json) → List (String × Json) → Bool
  | [], [] => true
  | (k, v) :: xs, (k2, v2) :: ys => k == k2 && jsonBeq v v2 && jsonBeqF xs ys
  | _, _ => false

end

/-- Value of a hexadecimal digit. -/
def hexVal (c : Char) : Option Nat :=
  if '0' ≤ c ∧ c ≤ '9' then some (c.toNat - 48)
  else if 'a' ≤ c ∧ c ≤ 'f' then some (c.toNat - 87)
  else if 'A' ≤ c ∧ c ≤ 'F' then some (c.toNat - 55)
  else none

/-- Parse exactly four hex digits. -/
def parseHex4 : List Char → Option (Nat × List Char)
  | a :: b :: c :: d :: r =>
    match hexVal a, hexVal b, hexVal c, hexVal d with
    | some x, some y, some z, some w => some (x * 4096 + y * 256 + z * 16 + w, r)
    | _, _, _, _ => none
  | _ => none

/-- Parse the characters of a JSON string literal after the opening quote,
handling escapes, up to and including the closing quote. -/
def parseStrChars : Nat → List Char → Option (List Char × List Char)
  | 0, _ => none
  | _, [] => none
  | fuel + 1, c :: r =>
    if c = qc then some ([], r)
    else if c = bs then
      match r with
      | [] => none
      | e :: r2 =>
        let cont := fun (ch : Char) (rest : List Char) =>
          (parseStrChars fuel rest).map (fun p => (ch :: p.1, p.2))
        if e = qc then cont qc r2
        else if e = bs then cont bs r2
        else if e = '/' then cont '/' r2
        else if e = 'b' then cont (Char.ofNat 8) r2
        else if e = 'f' then cont (Char.ofNat 12) r2
        else if e = 'n' then cont (Char.ofNat 10) r2
        else if e = 'r' then cont (Char.ofNat 13) r2
        else if e = 't' then cont (Char.ofNat 9) r2
        else if e = 'u' then
          match parseHex4 r2 with
          | some (n, r3) => cont (Char.ofNat n) r3
          | none => none
        else none
    else if c.toNat < 32 then none
    else (parseStrChars fuel r).map (fun p => (c :: p.1, p.2))

/-- Digit test. -/
def isDigitC (c : Char) : Bool := '0' ≤ c ∧ c ≤ '9'

/-- Take a run of decimal digits. -/
def takeDigits : List Char → (List Char × List Char)
  | [] => ([], [])
  | c :: r =>
    if isDigitC c then
      let p := takeDigits r
      (c :: p.1, p.2)
    else ([], c :: r)

/-- Parse the integer part of a JSON number (`0` or nonzero-led digits). -/
def parseIntPart : List Char → Option (List Char × List Char)
  | [] => none
  | c :: r =>
    if c = '0' then some ([c], r)
    else if isDigitC c then
      let p := takeDigits r
      some (c :: p.1, p.2)
    else none

/-- Parse an optional fraction part (`.` followed by one or more digits). -/
def parseFracPart (l : List Char) : Option (List Char × List Char) :=
  match l with
  | '.' :: r =>
    let p := takeDigits r
    if p.1.isEmpty then none else some ('.' :: p.1, p.2)
  | _ => some ([], l)

/-- Parse an optional exponent part. -/
def parseExpPart (l : List Char) : Option (List Char × List Char) :=
  match l with
  | c :: r =>
    if c = 'e' ∨ c = 'E' then
      match r with
      | s :: r2 =>
        if s = '+' ∨ s = '-' then
          let p := takeDigits r2
          if p.1.isEmpty then none else some (c :: s :: p.1, p.2)
        else
          let p := takeDigits r
          if p.1.isEmpty then none else some (c :: p.1, p.2)
      | [] => none
    else some ([], c :: r)
  | [] => some ([], [])

/-- Parse a complete JSON number lexeme (optionally negative). -/
def parseNum (l : List Char) : Option (List Char × List Char) :=
  let core := fun (l2 : List Char) =>
    match parseIntPart l2 with
    | none => none
    | some (ip, r1) =>
      match parseFracPart r1 with
      | none => none
      | some (fp, r2) =>
        match parseExpPart r2 with
        | none => none
        | some (ep, r3) => some (ip ++ fp ++ ep, r3)
  match l with
  | '-' :: r => (core r).map (fun p => ('-' :: p.1, p.2))
  | _ => core l

mutual

/-- Parse one JSON value (leading whitespace allowed). -/
def parseVal : Nat → List Char → Option (Json × List Char)
  | 0, _ => none
  | fuel + 1, l =>
    match dropWsL l with
    | [] => none
    | c :: r =>
      if c = qc then (parseStrChars (r.length + 1) r).map (fun p => (Json.str ⟨p.1⟩, p.2))
      else if c = lcurl then
        match dropWsL r with
        | c2 :: r2 => if c2 = rcurl then some (Json.obj [], r2) else parseObjItems fuel (c2 :: r2)
        | [] => none
      else if c = '[' then
        match dropWsL r with
        | c2 :: r2 => if c2 = ']' then some (Json.arr [], r2) else parseArrItems fuel (c2 :: r2)
        | [] => none
      else if isLeadOf ['t', 'r', 'u', 'e'] (c :: r) then some (Json.bool true, (c :: r).drop 4)
      else if isLeadOf ['f', 'a', 'l', 's', 'e'] (c :: r) then some (Json.bool false, (c :: r).drop 5)
      else if isLeadOf ['n', 'u', 'l', 'l'] (c :: r) then some (Json.null, (c :: r).drop 4)
      else if c = '-' ∨ isDigitC c then (parseNum (c :: r)).map (fun p => (Json.num ⟨p.1⟩, p.2))
      else none

/-- Parse the members of a JSON object after at least one member is known to
follow; consumes the closing brace. -/
def parseObjItems : Nat → List Char → Option (Json × List Char)
  | 0, _ => none
  | fuel + 1, l =>
    match dropWsL l with
    | c :: r =>
      if c = qc then
        match parseStrChars (r.length + 1) r with
        | some (key, r1) =>
          match dropWsL r1 with
          | ':' :: r2 =>
            match parseVal fuel r2 with
            | some (v, r3) =>
              match dropWsL r3 with
              | ',' :: r4 =>
                match parseObjItems fuel r4 with
                | some (Json.obj fields, r5) => some (Json.obj ((⟨key⟩, v) :: fields), r5)
                | _ => none
              | c5 :: r5 => if c5 = rcurl then some (Json.obj [(⟨key⟩, v)], r5) else none
              | [] => none
            | none => none
          | _ => none
        | none => none
      else none
    | [] => none

/-- Parse the elements of a JSON array after at least one element is known to
follow; consumes the closing bracket. -/
def parseArrItems : Nat → List Char → Option (Json × List Char)
  | 0, _ => none
  | fuel + 1, l =>
    match parseVal fuel l with
    | some (v, r1) =>
      match dropWsL r1 with
      | ',' :: r2 =>
        match parseArrItems fuel r2 with
        | some (Json.arr elems, r3) => some (Json.arr (v :: elems), r3)
        | _ => none
      | ']' :: r2 => some (Json.arr [v], r2)
      | _ => none
    | none => none

end

/-- JS `JSON.parse`: strict JSON, surrounding whitespace allowed, nothing may
follow the value.  `none` models the `SyntaxError` throw. -/
def jsonParse (s : String) : Option Json :=
  match parseVal (2 * s.data.length + 2) s.data with
  | some (j, rest) => if (dropWsL rest).isEmpty then some j else none
  | none => none

/-- Membership in a list of JSON values, via `jsonBeq` (JS `Set.has`). -/
def jsonMem (x : Json) (l : List Json) : Bool := l.any (jsonBeq x)

/-- JS `Set.add` on an insertion-ordered duplicate-free list. -/
def jsonSetAdd (l : List Json) (x : Json) : List Json :=
  if jsonMem x l then l else l ++ [x]

/-- JS `new Set(iterable)`: collect elements in first-occurrence order. -/
def jsNewSet (xs : List Json) : List Json := xs.foldl jsonSetAdd []

/-- Property lookup on a parsed JSON object's field list (first match; the
output of `JSON.parse` has no duplicate keys). -/
def lookupField : List (String × Json) → String → Option Json
  | [], _ => none
  | (k, v) :: rest, key => if k = key then some v else lookupField rest key

/-- Digits-to-number accumulator. -/
def digitsToNat : List Char → Nat → Nat
  | [], acc => acc
  | c :: r, acc => digitsToNat r (acc * 10 + (c.toNat - 48))

/-- A string that is a canonical array index in JS (`"0"`, `"7"`, `"42"`, …;
`"01"` or `""` are plain property names, not indices). -/
def canonIndex (s : String) : Option Nat :=
  match s.data with
  | [] => none
  | c :: r =>
    if ¬ isDigitC c then none
    else if c = '0' ∧ r ≠ [] then none
    else if r.all isDigitC then some (digitsToNat (c :: r) 0) else none

/-- JS property access `v[key]` for a non-null JSON value: objects by field
name, arrays and strings by canonical index, primitives yield `undefined`
(`none`).  Access on `null` throws and is handled at each call site. -/
def jsonIndexAccess (j : Json) (key : String) : Option Json :=
  match j with
  | .obj fields => lookupField fields key
  | .arr xs => (canonIndex key).bind (fun i => xs.get? i)
  | .str s => (canonIndex key).bind (fun i => (s.data.get? i).map (fun c => Json.str ⟨[c]⟩))
  | _ => none

/-- JS truthiness of a JSON value. -/
def jsTruthy (j : Json) : Bool :=
  match j with
  | .null => false
  | .bool b => b
  | .num lexeme => ¬ (lexeme = "0" ∨ lexeme = "-0" ∨ lexeme = "0.0")
  | .str s => s ≠ ""
  | .arr _ => true
  | .obj _ => true

/-- JS iteration (`new Set(v)`, `for..of`): arrays iterate their elements,
strings their characters (as 1-character strings); other values are not
iterable and make the consumer throw `TypeError` (`none`). -/
def jsIterate (j : Json) : Option (List Json) :=
  match j with
  | .arr xs => some xs
  | .str s => some (s.data.map (fun c => Json.str ⟨[c]⟩))
  | _ => none

/-! ## `config.js` -/

/-- The configuration object of `config.js`. -/
structure Config where
  vaultPath : String
  bookmarksFolder : String
  likesFolder : String
  uncategorizedFolder : String
  stateFile : String
  likesStateFile : String
  maxPages : Nat
  geminiModel : String
  batchSize : Nat
  maxTweetsPerRun : Nat
  includeMetadataTable : Bool
deriving DecidableEq

/-- The concrete configuration exported by `config.js`. -/
def config : Config where
  vaultPath := "/Users/bhagat/Desktop/Dummy"
  bookmarksFolder := "Twitter Bookmarks"
  likesFolder := "Twitter Likes"
  uncategorizedFolder := "Uncategorized"
  stateFile := "./data/state.json"
  likesStateFile := "./data/likes-state.json"
  maxPages := 2
  geminiModel := "gemini-3-flash-preview"
  batchSize := 10
  maxTweetsPerRun := 0
  includeMetadataTable := false

/-- Node `path.join` on the simple segment strings this pipeline joins
(no `..`/`.` normalization is ever exercised). -/
def joinP (a b : String) : String := a ++ "/" ++ b

/-! ## Items (tweets) -/

/-- A tweet author as delivered by the fetcher. -/
structure Author where
  username : Option String
  name : Option String
deriving DecidableEq

/-- A quoted tweet (only the fields `formatTweetAsMarkdown` reads). -/
structure QuotedTweet where
  id : String
  text : Option String
  author : Option Author
deriving DecidableEq

/-- An Item (bookmark or like) as delivered by the fetcher; optional fields
model JS properties that may be `undefined`. -/
structure Tweet where
  id : String
  text : Option String
  author : Option Author
  createdAt : Option String
  likeCount : Option Nat
  retweetCount : Option Nat
  replyCount : Option Nat
  conversationId : Option String
  inReplyToStatusId : Option String
  quotedTweet : Option QuotedTweet
deriving DecidableEq

/-- A tweet value with only an identifier (every other property absent). -/
def mkTweet (id : String) : Tweet :=
  ⟨id, none, none, none, none, none, none, none, none, none⟩

/-! ## `src/gemini.js` — the Categorizer -/

/-- Drop one leading quote character (double or single), as the `^["']`
alternative of the cleanup regex. -/
def stripLeadQ : List Char → List Char
  | [] => []
  | c :: r => if c = qc ∨ c = sq then r else c :: r

/-- The cleanup `category.replace(/^["']|["']$/g, '')` of `gemini.js`:
remove one surrounding quote character from each end. -/
def trimQuotes (s : String) : String :=
  ⟨(stripLeadQ ((stripLeadQ s.data).reverse)).reverse⟩

/-- The full per-label cleanup of `gemini.js` line 112:
`category.replace(/^["']|["']$/g, '').trim()`. -/
def cleanupCategory (s : String) : String := jsTrim (trimQuotes s)

/-- The validation + cleanup applied to the looked-up label of one tweet
(`gemini.js` lines 104–112): substitute the fallback if the value is absent,
falsy, not a string, or has (raw, pre-cleanup) length outside 2–50; then
apply the quote/whitespace cleanup to the surviving label. -/
def categorizeTweetLabel (fallback : String) (v : Option Json) : String :=
  let category : String :=
    match v with
    | some (Json.str s) => if 2 ≤ jsLen s ∧ jsLen s ≤ 50 then s else fallback
    | _ => fallback
  cleanupCategory category

/-- The leading code-fence strip `response.replace(/^```json?\n?/, '')`:
the regex requires the literal letters `jso` after the backticks, with the
final `n` and the newline optional. -/
def stripLeadFence (s : String) : String :=
  if jsStartsWith s "```json\n" then jsDrop s 8
  else if jsStartsWith s "```json" then jsDrop s 7
  else if jsStartsWith s "```jso\n" then jsDrop s 7
  else if jsStartsWith s "```jso" then jsDrop s 6
  else s

/-- The trailing code-fence strip `response.replace(/\n?```$/, '')`. -/
def stripTrailFence (s : String) : String :=
  if jsEndsWith s "\n```" then jsTake s (jsLen s - 4)
  else if jsEndsWith s "```" then jsTake s (jsLen s - 3)
  else s

/-- The reply preprocessing of `categorizeBatch` before `JSON.parse`:
`result.response.text().trim()`, then the code-fence strips when the trimmed
reply opens with backticks. -/
def preprocessReply (raw : String) : String :=
  let response := jsTrim raw
  if jsStartsWith response "```" then stripTrailFence (stripLeadFence response)
  else response

/-- `categorizeBatch(tweets, existingCategories)` of `gemini.js`.  The oracle
interaction is the input `reply`: `none` models a throwing
`model.generateContent` call, `some raw` a reply with text `raw`.  The
returned association list is the JS `Map` in insertion order (`tweets`
order).  `existingCategories` only shapes the prompt and the console output,
so it does not influence the returned mapping.  The whole body runs inside
`try`/`catch`, so the function never throws: on a generation error, a JSON
parse error, or a `TypeError` from indexing a `null` reply, every tweet of
the batch is mapped to the configured fallback label. -/
def categorizeBatch (tweets : List Tweet) (existingCategories : List String)
    (reply : Option String) : List (String × String) :=
  match reply with
  | none => tweets.map (fun t => (t.id, config.uncategorizedFolder))
  | some raw =>
    match jsonParse (preprocessReply raw) with
    | none => tweets.map (fun t => (t.id, config.uncategorizedFolder))
    | some Json.null => tweets.map (fun t => (t.id, config.uncategorizedFolder))
    | some parsed =>
      tweets.map (fun t =>
        (t.id, categorizeTweetLabel config.uncategorizedFolder (jsonIndexAccess parsed t.id)))

/-- A directory entry as seen by `readdirSync` + `statSync`. -/
structure Entry where
  name : String
  isDir : Bool
deriving DecidableEq

/-- `getExistingCategories` of `gemini.js`: the JS function is declared with
no parameters, so the argument that `likes.js` passes (`config.likesFolder`)
is received and ignored; the directory that is listed is always
`join(config.vaultPath, config.bookmarksFolder)`.  `readdir` models
`readdirSync` (`none` = the call threw, caught and turned into `[]`). -/
def getExistingCategories (readdir : String → Option (List Entry)) (_likesArg : String) :
    List String :=
  let bookmarksPath := joinP config.vaultPath config.bookmarksFolder
  match readdir bookmarksPath with
  | none => []
  | some entries =>
    (entries.filter (fun e => e.isDir ∧ ¬ jsStartsWith e.name ".")).map Entry.name

/-! ## `src/state.js` — the State Store

The persisted state file is modeled at the JSON-value level: the environment
pair `JSON.stringify` / `JSON.parse` is the identity transport on the
documents this code writes, so `writeFileSync(JSON.stringify(d))` stores the
value `d` and a later read parses it back.  A file that is missing, unreadable,
or whose text does not parse is `none`. -/

/-- The document written by `saveState`:
`{ lastUpdated: <now>, processedIds: Array.from(set) }`. -/
def saveStateDoc (processedIds : List Json) (now : String) : Json :=
  Json.obj [("lastUpdated", Json.str now), ("processedIds", Json.arr processedIds)]

/-- The document written by `saveLikesState` (same shape as `saveStateDoc`). -/
def saveLikesStateDoc (processedIds : List Json) (now : String) : Json :=
  Json.obj [("lastUpdated", Json.str now), ("processedIds", Json.arr processedIds)]

/-- The body of `loadState`/`loadLikesState` on a successfully parsed
document `j`: accessing `data.processedIds` on a `null` document throws, and
so does `.length` on an absent or `null` member, and `new Set(v)` on a
non-iterable `v` — the surrounding `try`/`catch` turns every such throw into
the empty set.  An iterable `processedIds` (an array, or a string iterating
its characters) yields the set of its elements. -/
def loadFromDoc (j : Json) : List Json :=
  match j with
  | Json.null => []
  | j =>
    match jsonIndexAccess j "processedIds" with
    | none => []
    | some Json.null => []
    | some v =>
      match jsIterate v with
      | some elems => jsNewSet elems
      | none => []

/-- `loadState` of `state.js`.  Everything runs in `try`/`catch` returning an
empty `Set` on any throw, so the function never raises; a missing, unreadable
or unparsable file is `none`. -/
def loadState (file : Option Json) : List Json :=
  match file with
  | none => []
  | some j => loadFromDoc j

/-- `loadLikesState` of `state.js` (same logic, reading the likes state
file). -/
def loadLikesState (file : Option Json) : List Json :=
  match file with
  | none => []
  | some j => loadFromDoc j

/-- `findNewBookmarks(bookmarks, processedIds)`:
`bookmarks.filter(b => !processedIds.has(b.id))` (the rest of the function is
console logging). -/
def findNewBookmarks (bookmarks : List Tweet) (processedIds : List Json) : List Tweet :=
  bookmarks.filter (fun b => ¬ jsonMem (Json.str b.id) processedIds)

/-- `findNewLikes(likes, processedIds)`:
`likes.filter(l => !processedIds.has(l.id))`. -/
def findNewLikes (likes : List Tweet) (processedIds : List Json) : List Tweet :=
  likes.filter (fun l => ¬ jsonMem (Json.str l.id) processedIds)

/-! ## `src/obsidian.js` — the Vault Writer -/

/-- Filesystem-reserved characters removed by `sanitizeFilename`
for the character class in the regex it uses. -/
def isInvalidFileChar (c : Char) : Bool :=
  c = '<' ∨ c = '>' ∨ c = ':' ∨ c = qc ∨ c = '/' ∨ c = bs ∨ c = '|' ∨ c = '?' ∨ c = '*'

/-- Collapse every run of whitespace to a single space
for the whitespace-normalizing regex replacement. -/
def collapseWs : List Char → List Char
  | [] => []
  | [c] => [if isJsWs c then ' ' else c]
  | c :: d :: r =>
    if isJsWs c ∧ isJsWs d then collapseWs (d :: r)
    else (if isJsWs c then ' ' else c) :: collapseWs (d :: r)

/-- `sanitizeFilename` of `obsidian.js` (identical copy in `organize.js`):
strip reserved characters, normalize whitespace, trim, cap at 100
characters. -/
def sanitizeFilename (s : String) : String :=
  jsTake (jsTrim ⟨collapseWs (s.data.filter (fun c => ¬ isInvalidFileChar c))⟩) 100

/-- JS `opt || dflt` on an optional string property. -/
def jsOrStr (v : Option String) (d : String) : String :=
  match v with
  | some s => if s = "" then d else s
  | none => d

/-- JS `opt || 0` on an optional count property, rendered as decimal text. -/
def jsOrNum (v : Option Nat) : String := toString (v.getD 0)

/-- The date part of `new Date(s).toISOString()`.  `Date` is environmental;
the fetcher emits ISO-8601 timestamps, for which the round trip through
`Date` preserves the date part, so this is the text up to the `T`. -/
def isoDatePart (s : String) : String := ⟨s.data.takeWhile (fun c => c ≠ 'T')⟩

/-- `generateFilename` of `obsidian.js`: `date @author - textPreview`, with
the tweet id substituted when the sanitized text preview is empty.  `now` is
the current timestamp (used when the tweet has no `createdAt`). -/
def generateFilename (now : String) (tweet : Tweet) : String :=
  let date := match tweet.createdAt with
    | some d => isoDatePart d
    | none => isoDatePart now
  let author := jsOrStr (tweet.author.bind Author.username) "unknown"
  let textPreview := jsTrim (jsTake (sanitizeFilename (jsOrStr tweet.text "")) 50)
  let base := if textPreview = "" then tweet.id else textPreview
  date ++ " @" ++ author ++ " - " ++ base

/-- Escape `"` as `\"` for the `author_name` frontmatter value. -/
def escQuotes (s : String) : String :=
  ⟨(s.data.map (fun c => if c = qc then [bs, qc] else [c])).flatten⟩

/-- Concatenate strings with a separator (JS `Array.prototype.join`). -/
def joinWith (sep : String) : List String → String
  | [] => ""
  | [x] => x
  | x :: y :: r => x ++ sep ++ joinWith sep (y :: r)

/-- `new Date(s).toLocaleString()`; environmental formatting, abstracted as
the identity (it only feeds the optional human-readable metadata table, which
no claim inspects). -/
def toLocale (s : String) : String := s

/-- One double quote as a string. -/
def q : String := ⟨[qc]⟩

/-- `formatTweetAsMarkdown` of `obsidian.js`: YAML-frontmatter block, title,
body, permalink, optional metadata table, optional quoted-tweet section. -/
def formatTweetAsMarkdown (now : String) (tweet : Tweet) : String :=
  let username := jsOrStr (tweet.author.bind Author.username) "unknown"
  let urlUser := jsOrStr (tweet.author.bind Author.username) "i"
  let authorName := jsOrStr (tweet.author.bind Author.name) "Unknown"
  let tweetUrl := "https://twitter.com/" ++ urlUser ++ "/status/" ++ tweet.id
  let createdAtDisplay := match tweet.createdAt with
    | some d => toLocale d
    | none => "Unknown"
  let replyLine := match tweet.inReplyToStatusId with
    | some r => if r = "" then "" else "in_reply_to: " ++ q ++ r ++ q
    | none => ""
  let md :=
    "---\nid: " ++ q ++ tweet.id ++ q ++
    "\nauthor: " ++ q ++ "@" ++ username ++ q ++
    "\nauthor_name: " ++ q ++ escQuotes (jsOrStr (tweet.author.bind Author.name) "Unknown") ++ q ++
    "\ncreated_at: " ++ q ++ (tweet.createdAt.getD "") ++ q ++
    "\nbookmarked_at: " ++ q ++ now ++ q ++
    "\nlikes: " ++ jsOrNum tweet.likeCount ++
    "\nretweets: " ++ jsOrNum tweet.retweetCount ++
    "\nreplies: " ++ jsOrNum tweet.replyCount ++
    "\nurl: " ++ q ++ tweetUrl ++ q ++
    "\nconversation_id: " ++ q ++ (tweet.conversationId.getD "") ++ q ++
    "\n" ++ replyLine ++
    "\n---\n\n# Tweet by @" ++ username ++ "\n\n" ++
    jsOrStr tweet.text "(No text)" ++
    "\n\n[View on Twitter](" ++ tweetUrl ++ ")\n"
  let md := if config.includeMetadataTable then
      md ++ "\n---\n\n## Metadata\n\n| Field | Value |\n|-------|-------|\n" ++
      "| **Author** | [@" ++ username ++ "](https://twitter.com/" ++ username ++ ") (" ++
      authorName ++ ") |\n| **Posted** | " ++ createdAtDisplay ++
      " |\n| **Likes** | " ++ jsOrNum tweet.likeCount ++
      " |\n| **Retweets** | " ++ jsOrNum tweet.retweetCount ++
      " |\n| **Replies** | " ++ jsOrNum tweet.replyCount ++
      " |\n| **Link** | [View on Twitter](" ++ tweetUrl ++ ") |\n"
    else md
  match tweet.quotedTweet with
  | some qt =>
    let qtUser := jsOrStr (qt.author.bind Author.username) "unknown"
    let qtName := jsOrStr (qt.author.bind Author.name) "Unknown"
    let qtUrl := "https://twitter.com/" ++ jsOrStr (qt.author.bind Author.username) "i" ++
      "/status/" ++ qt.id
    let qtText := joinWith "\n> " ((splitOnChar '\n' (jsOrStr qt.text "").data).map (⟨·⟩))
    md ++ "\n## Quoted Tweet\n\n> **@" ++ qtUser ++ "** (" ++ qtName ++ ")\n> \n> " ++
      qtText ++ "\n>\n> [View quoted tweet](" ++ qtUrl ++ ")\n"
  | none => md

/-- The filesystem and state-file world threaded through the sync pipeline.
`files` maps absolute path to content; `dirs` is the set of directories;
`likesState` is the content of `config.likesStateFile`; `failWrites` is the
set of paths at which `writeFileSync` throws (modeling per-item write
failures). -/
structure World where
  files : List (String × String)
  dirs : List String
  likesState : Option Json
  failWrites : List String

/-- `writeFileSync`: overwrite or create the file at `p`. -/
def fsWrite (files : List (String × String)) (p c : String) : List (String × String) :=
  (p, c) :: files.filter (fun e => e.1 ≠ p)

/-- `saveTweetToVault(tweet, category, dryRun)` of `obsidian.js`.  The folder
is always `vaultPath/bookmarksFolder/<sanitized category>`: the function has
no folder parameter, so the extra argument passed by the likes orchestrator
does not reach it.  Returns the computed file path; `Except.error` models a
throwing `writeFileSync`. -/
def saveTweetToVault (now : String) (tweet : Tweet) (category : String) (dryRun : Bool)
    (w : World) : Except String (World × String) :=
  let folderPath := joinP (joinP config.vaultPath config.bookmarksFolder)
    (sanitizeFilename category)
  let w1 := if ¬ dryRun ∧ folderPath ∉ w.dirs then { w with dirs := folderPath :: w.dirs } else w
  let filePath := joinP folderPath (generateFilename now tweet ++ ".md")
  let content := formatTweetAsMarkdown now tweet
  if dryRun then Except.ok (w1, filePath)
  else if filePath ∈ w.failWrites then Except.error "write failed"
  else Except.ok ({ w1 with files := fsWrite w1.files filePath content }, filePath)

/-- One entry of the result list of `saveTweetsToVault`. -/
structure SaveResult where
  tweet : Tweet
  path : String
  category : String
deriving DecidableEq

/-- Association-list lookup (JS `Map.get` for string keys). -/
def lookupStr : List (String × String) → String → Option String
  | [], _ => none
  | (k, v) :: rest, key => if k = key then some v else lookupStr rest key

/-- JS `map.get(k) || dflt`: absent or falsy (empty) values give the
default. -/
def jsGetOr (m : List (String × String)) (k d : String) : String :=
  match lookupStr m k with
  | some v => if v = "" then d else v
  | none => d

/-- The per-tweet write loop of `saveTweetsToVault`: write each tweet under
its category (`categories.get(id) || uncategorizedFolder`), skipping — but
not propagating — per-item failures; only successfully written items are
pushed onto the result list. -/
def saveTweetsLoop (now : String) (categories : List (String × String)) (dryRun : Bool) :
    List Tweet → World → List SaveResult → World × List SaveResult
  | [], w, results => (w, results)
  | tweet :: rest, w, results =>
    let category := jsGetOr categories tweet.id config.uncategorizedFolder
    match saveTweetToVault now tweet category dryRun w with
    | Except.ok (w2, path) =>
      saveTweetsLoop now categories dryRun rest w2 (results ++ [⟨tweet, path, category⟩])
    | Except.error _ => saveTweetsLoop now categories dryRun rest w results

/-- `saveTweetsToVault(tweets, categories, dryRun)` of `obsidian.js`: ensure
the base bookmarks folder, then run the write loop.  The JS declaration has
exactly these three data parameters, so the fourth argument
(`config.likesFolder`) passed by `likes.js` is ignored by JS call
semantics. -/
def saveTweetsToVault (now : String) (tweets : List Tweet)
    (categories : List (String × String)) (dryRun : Bool) (w0 : World) :
    World × List SaveResult :=
  let basePath := joinP config.vaultPath config.bookmarksFolder
  let w1 := if ¬ dryRun ∧ basePath ∉ w0.dirs then { w0 with dirs := basePath :: w0.dirs } else w0
  saveTweetsLoop now categories dryRun tweets w1 []

/-! ## `src/bird.js` — the Source Fetcher -/

/-- Outcome of the single `execSync` subprocess invocation: normal completion
with the captured standard output, or a throwing invocation carrying the
error message and the optional captured streams. -/
inductive ExecOutcome where
  | ok (stdout : String) : ExecOutcome
  | err (message : String) (stdout : Option String) (stderr : Option String) : ExecOutcome
deriving DecidableEq

/-- `Array.isArray(parsed) ? parsed : (parsed.tweets || [])`: `none` models
the `TypeError` thrown by the property access when `parsed` is `null`. -/
def coerceTweets (parsed : Json) : Option Json :=
  match parsed with
  | Json.null => none
  | Json.arr xs => some (Json.arr xs)
  | j =>
    match jsonIndexAccess j "tweets" with
    | some v => if jsTruthy v then some v else some (Json.arr [])
    | none => some (Json.arr [])

/-- Environment-generated message of a `JSON.parse` `SyntaxError` (its exact
text is produced by the JS engine; no claim depends on it). -/
def syntaxErrorMessage : String := "Unexpected token in JSON"

/-- Environment-generated message of the `TypeError` raised by a property
access on `null`. -/
def typeErrorMessage : String := "Cannot read properties of null"

/-- `fetchBookmarks` of `bird.js`.  `execs` is the stream of available
subprocess outcomes; the function consumes exactly its head — `execSync` is
invoked once and never retried.  On process failure, one recovery attempt
parses the captured stdout (when present and non-empty); if that yields a
usable value the items are returned, otherwise a fetch error carrying the
process's error message is raised. -/
def fetchBookmarks (execs : List ExecOutcome) : Except String Json :=
  match execs with
  | [] => Except.error "no subprocess outcome supplied"
  | e :: _ =>
    match e with
    | ExecOutcome.ok stdout =>
      match jsonParse stdout with
      | some parsed =>
        match coerceTweets parsed with
        | some items => Except.ok items
        | none => Except.error ("Failed to fetch bookmarks: " ++ typeErrorMessage)
      | none => Except.error ("Failed to fetch bookmarks: " ++ syntaxErrorMessage)
    | ExecOutcome.err msg stdout _ =>
      let recovered : Option Json :=
        match stdout with
        | some out =>
          if out = "" then none
          else
            match jsonParse out with
            | some parsed => coerceTweets parsed
            | none => none
        | none => none
      match recovered with
      | some items => Except.ok items
      | none => Except.error ("Failed to fetch bookmarks: " ++ msg)

/-- `fetchLikes` of `bird.js`: the same logic as `fetchBookmarks` with the
likes subcommand and error prefix. -/
def fetchLikes (execs : List ExecOutcome) : Except String Json :=
  match execs with
  | [] => Except.error "no subprocess outcome supplied"
  | e :: _ =>
    match e with
    | ExecOutcome.ok stdout =>
      match jsonParse stdout with
      | some parsed =>
        match coerceTweets parsed with
        | some items => Except.ok items
        | none => Except.error ("Failed to fetch likes: " ++ typeErrorMessage)
      | none => Except.error ("Failed to fetch likes: " ++ syntaxErrorMessage)
    | ExecOutcome.err msg stdout _ =>
      let recovered : Option Json :=
        match stdout with
        | some out =>
          if out = "" then none
          else
            match jsonParse out with
            | some parsed => coerceTweets parsed
            | none => none
        | none => none
      match recovered with
      | some items => Except.ok items
      | none => Except.error ("Failed to fetch likes: " ++ msg)

/-! ## `src/likes.js` — the likes Sync Orchestrator -/

/-- Node `path.dirname` for the simple relative paths used by the state
files. -/
def dirnameOf (s : String) : String :=
  if s.data.contains '/' then ⟨((s.data.reverse.dropWhile (fun c => c ≠ '/')).drop 1).reverse⟩
  else "."

/-- `saveLikesState` as a world update: create the state directory if needed
and overwrite the likes state file with the serialized document. -/
def saveLikesStateW (now : String) (processedIds : List Json) (w : World) : World :=
  let dir := dirnameOf config.likesStateFile
  let w1 := if dir ∉ w.dirs then { w with dirs := dir :: w.dirs } else w
  { w1 with likesState := some (saveLikesStateDoc processedIds now) }

/-- The in-memory state of the likes batch loop: the filesystem world, the
evolving `existingCategories` array, and the `processedIds` set.
(The claims do not inspect the `categoryCount` console statistics, which are
therefore not tracked.) -/
structure LikesState where
  world : World
  existingCategories : List String
  processedIds : List Json

/-- `for (const { tweet } of results) processedIds.add(tweet.id)`: fold the
successfully written items' ids into the processed set. -/
def addProcessed : List SaveResult → List Json → List Json
  | [], pids => pids
  | r :: rest, pids => addProcessed rest (jsonSetAdd pids (Json.str r.tweet.id))

/-- One iteration of the likes batch loop (`likes.js` lines 107–152):
categorize the batch, fold newly minted labels into `existingCategories`,
write the batch to the vault, and — unless in dry run — add the ids of the
successfully written items to `processedIds` and save the likes state file.
Also returns the batch's category mapping. -/
def processBatch (now : String) (dryRun : Bool) (batch : List Tweet) (reply : Option String)
    (s : LikesState) : LikesState × List (String × String) :=
  let batchCategories := categorizeBatch batch s.existingCategories reply
  let existing := batchCategories.foldl
    (fun ex kv =>
      if ¬ ex.contains kv.2 ∧ kv.2 ≠ config.uncategorizedFolder then ex ++ [kv.2] else ex)
    s.existingCategories
  let wr := saveTweetsToVault now batch batchCategories dryRun s.world
  if dryRun then
    ({ world := wr.1, existingCategories := existing, processedIds := s.processedIds },
      batchCategories)
  else
    let pids := addProcessed wr.2 s.processedIds
    ({ world := saveLikesStateW now pids wr.1, existingCategories := existing,
       processedIds := pids }, batchCategories)

/-- Run the batch loop over a list of (batch, oracle reply) pairs, collecting
the per-batch category mappings. -/
def runOn (now : String) (dryRun : Bool) :
    List (List Tweet × Option String) → LikesState → LikesState × List (List (String × String))
  | [], s => (s, [])
  | (batch, reply) :: rest, s =>
    let p := processBatch now dryRun batch reply s
    let r := runOn now dryRun rest p.1
    (r.1, p.2 :: r.2)

/-- Split into consecutive chunks of size `n` (the batch slicing of the
orchestrators), by fuel on the length. -/
def chunksAux (n : Nat) : Nat → List α → List (List α)
  | 0, _ => []
  | _, [] => []
  | fuel + 1, l => l.take n :: chunksAux n fuel (l.drop n)

/-- Split a list into consecutive chunks of size `n`. -/
def chunks (n : Nat) (l : List α) : List (List α) := chunksAux n l.length l

/-- Pair each batch with its oracle reply (a missing reply is a throwing
oracle call). -/
def zipReplies : List (List α) → List (Option String) → List (List α × Option String)
  | [], _ => []
  | b :: bs, [] => (b, none) :: zipReplies bs []
  | b :: bs, r :: rs => (b, r) :: zipReplies bs rs

/-- The likes sync `main` of `likes.js` from the point where the fetched
items are in hand: load state, diff, apply the per-run cap, list existing
categories, then run the batch loop.  Returns the final world and the
per-batch category mappings.  (`initGemini` and the fetch itself are
environmental; the fetched list and the per-batch oracle replies are
inputs.) -/
def runLikes (now : String) (dryRun : Bool) (readdir : String → Option (List Entry))
    (likes : List Tweet) (replies : List (Option String)) (w : World) :
    World × List (List (String × String)) :=
  if likes.isEmpty then (w, [])
  else
    let processedIds := loadLikesState w.likesState
    let newLikes := findNewLikes likes processedIds
    if newLikes.isEmpty then (w, [])
    else
      let toProcess :=
        if 0 < config.maxTweetsPerRun ∧ config.maxTweetsPerRun < newLikes.length then
          newLikes.take config.maxTweetsPerRun
        else newLikes
      let existingCategories := getExistingCategories readdir config.likesFolder
      let batchSize := if config.batchSize = 0 then 10 else config.batchSize
      let pairs := zipReplies (chunks batchSize toProcess) replies
      let r := runOn now dryRun pairs
        { world := w, existingCategories := existingCategories, processedIds := processedIds }
      (r.1.world, r.2)

/-- The file path `saveTweetToVault` computes for a tweet and category — it
depends only on the tweet, the category and the clock, never on the world or
on any folder argument:
`vaultPath/bookmarksFolder/<sanitized category>/<filename>.md`. -/
def tweetWritePath (now : String) (tweet : Tweet) (category : String) : String :=
  joinP (joinP (joinP config.vaultPath config.bookmarksFolder) (sanitizeFilename category))
    (generateFilename now tweet ++ ".md")

/-- Spec-side characterization (for the batch-persistence claim): the tweets
of a batch whose vault write succeeds, i.e. whose computed write path is not
a failing path. -/
def writableTweets (now : String) (cats : List (String × String)) (fails : List String)
    (ts : List Tweet) : List Tweet :=
  ts.filter
    (fun t => ¬ (tweetWritePath now t (jsGetOr cats t.id config.uncategorizedFolder)) ∈ fails)

/-- Whether a path lies strictly under the bookmarks base folder. -/
def underBookmarks (p : String) : Bool :=
  isLeadOf (joinP config.vaultPath config.bookmarksFolder ++ "/").data p.data

/-- Whether a path lies strictly under the likes folder. -/
def underLikes (p : String) : Bool :=
  isLeadOf (joinP config.vaultPath config.likesFolder ++ "/").data p.data

/-! ## `src/organize.js` — the Vault Organizer -/

/-- Split a character list at the first occurrence of `pat`, returning the
part before it and the part after it (the lazy-match split used by the
document re-parsing regexes). -/
def findSplit (pat : List Char) : List Char → Option (List Char × List Char)
  | [] => if isLeadOf pat [] then some ([], []) else none
  | c :: r =>
    if isLeadOf pat (c :: r) then some ([], (c :: r).drop pat.length)
    else (findSplit pat r).map (fun p => (c :: p.1, p.2))

/-- Word character of the regex class `[\w]`. -/
def isWordChar (c : Char) : Bool :=
  ('a' ≤ c ∧ c ≤ 'z') ∨ ('A' ≤ c ∧ c ≤ 'Z') ∨ isDigitC c ∨ c = '_'

/-- Match one frontmatter line against `/^KEY\s*"?([^"\n]+)"?/`: the line
must start with the literal key, then optional whitespace, an optional
opening quote, and a nonempty capture of non-quote characters. -/
def matchFmLine (key : String) (line : List Char) : Option (List Char) :=
  if isLeadOf key.data line then
    let rest := (line.drop key.data.length).dropWhile (fun c => isJsWs c)
    let rest2 := match rest with
      | c :: r => if c = qc then r else c :: r
      | [] => []
    let cap := rest2.takeWhile (fun c => c ≠ qc)
    if cap.isEmpty then none else some cap
  else none

/-- First line of the frontmatter matching the keyed pattern (the `/m` flag
tries every line in order). -/
def firstFmMatch (key : String) : List (List Char) → Option (List Char)
  | [] => none
  | l :: ls =>
    match matchFmLine key l with
    | some c => some c
    | none => firstFmMatch key ls

/-- Delete the first occurrence of a character (JS `replace('@', '')` with a
string pattern replaces only the first occurrence). -/
def removeFirstChar (t : Char) : List Char → List Char
  | [] => []
  | c :: r => if c = t then r else c :: removeFirstChar t r

/-- Attempt the body-text pattern
`/# Tweet by @[\w]+\n\n([\s\S]*?)\n\n\[View on Twitter\]/` at the head of the
list: literal lead, a nonempty greedy word run, a blank line, then the lazy
capture up to the next blank line followed by the permalink lead. -/
def matchTextAt (l : List Char) : Option (List Char) :=
  if isLeadOf ("# Tweet by @").data l then
    let r := l.drop 12
    let w := r.takeWhile isWordChar
    if w.isEmpty then none
    else
      let r2 := r.drop w.length
      if isLeadOf ['\n', '\n'] r2 then
        match findSplit ("\n\n[View on Twitter]").data (r2.drop 2) with
        | some (cap, _) => some cap
        | none => none
      else none
  else none

/-- Scan for the leftmost position where the body-text pattern matches. -/
def scanText : List Char → Option (List Char)
  | [] => none
  | c :: r =>
    match matchTextAt (c :: r) with
    | some cap => some cap
    | none => scanText r

/-- The result of re-parsing a vault document. -/
structure ParsedNote where
  id : String
  text : String
  authorUsername : Option String
  authorName : Option String
deriving DecidableEq

/-- `parseMarkdownFile` of `organize.js` (on the file's content): extract the
frontmatter block delimited by `---\n … \n---` at the start, read the `id`,
`author` and `author_name` lines, and recover the body text between the title
line and the permalink line; `none` (JS `null`) when the frontmatter or the
`id` is missing. -/
def parseMarkdownFile (content : String) : Option ParsedNote :=
  if isLeadOf ("---\n").data content.data then
    match findSplit ("\n---").data (content.data.drop 4) with
    | none => none
    | some (fm, after) =>
      let lines := splitOnChar '\n' fm
      let id? := firstFmMatch "id:" lines
      let author? := (firstFmMatch "author:" lines).map
        (fun c => (⟨removeFirstChar '@' c⟩ : String))
      let authorName? := (firstFmMatch "author_name:" lines).map (fun c => (⟨c⟩ : String))
      let text := match scanText after with
        | some cap => jsTrim ⟨cap⟩
        | none => ""
      match id? with
      | none => none
      | some idc => some ⟨⟨idc⟩, text, author?, authorName?⟩
  else none

/-- A file of the organized subtree: containing directory (absolute path),
basename, and content. -/
structure VFile where
  dir : String
  name : String
  content : String
deriving DecidableEq

/-- The destination subtree operated on by the organizer: its files and its
directory inventory. -/
structure OVault where
  files : List VFile
  dirs : List String
deriving DecidableEq

/-- A parsed note together with its file location (the organizer keeps
`filePath` and `content` on the parsed object). -/
structure ONote where
  id : String
  text : String
  authorUsername : Option String
  authorName : Option String
  dir : String
  name : String
  content : String
deriving DecidableEq

/-- Path components of `d` relative to `basePath` (`none` if `d` is not
inside `basePath`; `some []` if it is `basePath` itself). -/
def relComponents (basePath d : String) : Option (List (List Char)) :=
  if d = basePath then some []
  else if isLeadOf (basePath ++ "/").data d.data then
    some (splitOnChar '/' (d.data.drop (basePath.data.length + 1)))
  else none

/-- A hidden path component (leading dot). -/
def isHiddenComp (l : List Char) : Bool :=
  match l with
  | c :: _ => c = '.'
  | [] => false

/-- The selection test of `getAllMarkdownFiles` in `organize.js`: a `.md`
file under the base path whose name and directory components are not
hidden. -/
def enumPred (basePath : String) (f : VFile) : Bool :=
  match relComponents basePath f.dir with
  | some comps =>
    comps.all (fun c => ¬ isHiddenComp c) ∧ ¬ jsStartsWith f.name "." ∧
      jsEndsWith f.name ".md"
  | none => false

/-- `getAllMarkdownFiles` of `organize.js`: every `.md` file under the base
path whose name and directory components are not hidden, in the vault's
enumeration order. -/
def enumerateFiles (basePath : String) (v : OVault) : List VFile :=
  v.files.filter (enumPred basePath)

/-- Parse every enumerated file in order, collecting the notes (with their
file location) and the count of files that failed to parse. -/
def parseVaultNotes : List VFile → List ONote × Nat
  | [] => ([], 0)
  | f :: rest =>
    let r := parseVaultNotes rest
    match parseMarkdownFile f.content with
    | some p =>
      (⟨p.id, p.text, p.authorUsername, p.authorName, f.dir, f.name, f.content⟩ :: r.1, r.2)
    | none => (r.1, r.2 + 1)

/-- `existsSync` for a directory: listed in the inventory or implied by a
file living in it. -/
def existsDir (v : OVault) (d : String) : Bool :=
  v.dirs.contains d ∨ v.files.any (fun f => f.dir = d)

/-- `renameSync(src, dst)` where `dst` keeps the basename: the file at the
source location moves, replacing any file already at the destination. -/
def fsRename (files : List VFile) (srcDir srcName dstDir : String) : List VFile :=
  if srcDir = dstDir then files
  else
    (files.filter (fun f => ¬ (f.dir = dstDir ∧ f.name = srcName))).map
      (fun f => if f.dir = srcDir ∧ f.name = srcName then { f with dir := dstDir } else f)

/-- `moveToCategory(filePath, category, basePath, dryRun)` of `organize.js`:
a file already in its category folder is left untouched (`moved: false`,
"already in place"); otherwise — unless in dry run — the category folder is
created on demand and the file is renamed into it (`moved: true`). -/
def moveToCategory (fileDir fileName category basePath : String) (dryRun : Bool)
    (v : OVault) : OVault × Bool :=
  let categoryFolder := joinP basePath (sanitizeFilename category)
  if fileDir = categoryFolder then (v, false)
  else if dryRun then (v, true)
  else
    let v1 := if ¬ existsDir v categoryFolder then { v with dirs := categoryFolder :: v.dirs }
      else v
    ({ v1 with files := fsRename v1.files fileDir fileName categoryFolder }, true)

/-- View a parsed note as the tweet-shaped object handed to the Categorizer
(`organize.js` builds `{ id, text, author }`). -/
def noteToTweet (n : ONote) : Tweet :=
  { mkTweet n.id with text := some n.text, author := some ⟨n.authorUsername, n.authorName⟩ }

/-- JS `Map.set`: update in place if the key exists, else append. -/
def setAssoc : List (String × String) → String → String → List (String × String)
  | [], k, v => [(k, v)]
  | (k0, v0) :: rest, k, v =>
    if k0 = k then (k0, v) :: rest else (k0, v0) :: setAssoc rest k v

/-- STEP 7 of `organize.js`: re-categorize the notes in fixed-size batches,
merging each batch's mapping into `allCategories` and folding newly minted
labels into the evolving `existingCategories` list (which starts empty). -/
def computeAllCategories (notes : List ONote) (replies : List (Option String)) :
    List (String × String) :=
  let batchSize := if config.batchSize = 0 then 10 else config.batchSize
  let pairs := zipReplies (chunks batchSize notes) replies
  (pairs.foldl
    (fun acc p =>
      let batchCategories := categorizeBatch (p.1.map noteToTweet) acc.2 p.2
      batchCategories.foldl
        (fun acc2 kv =>
          (setAssoc acc2.1 kv.1 kv.2,
            if ¬ acc2.2.contains kv.2 ∧ kv.2 ≠ config.uncategorizedFolder then acc2.2 ++ [kv.2]
            else acc2.2))
        acc)
    (([] : List (String × String)), ([] : List String))).1

/-- STEP 8 of `organize.js`: walk the parsed notes, resolving each against
its assigned label (`allCategories.get(id) || uncategorizedFolder`), creating
missing category folders (when not in dry run) and moving files; returns the
final subtree with the `movedCount` and `skippedCount` ("already in place")
tallies. -/
def organizeMoves (basePath : String) (allCategories : List (String × String))
    (dryRun : Bool) : List ONote → OVault → OVault × Nat × Nat
  | [], v => (v, 0, 0)
  | note :: rest, v =>
    let category := jsGetOr allCategories note.id config.uncategorizedFolder
    let categoryFolder := joinP basePath (sanitizeFilename category)
    let v1 := if ¬ dryRun ∧ ¬ existsDir v categoryFolder then
        { v with dirs := categoryFolder :: v.dirs }
      else v
    let mv := moveToCategory note.dir note.name category basePath dryRun v1
    let r := organizeMoves basePath allCategories dryRun rest mv.1
    (r.1, if mv.2 then (r.2.1 + 1, r.2.2) else (r.2.1, r.2.2 + 1))

/-- Whether path `p` lies strictly inside directory `d` with a non-hidden
top component (so `p` contributes a visible entry to `d`'s listing). -/
def topCompVisible (d p : String) : Bool :=
  match relComponents d p with
  | some (e :: _) => ¬ isHiddenComp e
  | _ => false

/-- Whether directory `d` has at least one non-hidden entry (file or
subdirectory, immediate children only, as `readdirSync` lists them). -/
def hasVisibleEntry (v : OVault) (d : String) : Bool :=
  v.files.any (fun f => (f.dir = d ∧ ¬ jsStartsWith f.name ".") ∨ topCompVisible d f.dir) ∨
  v.dirs.any (fun d2 => topCompVisible d d2)

/-- `cleanupEmptyDirs` of `organize.js`: remove every non-hidden immediate
subdirectory of the base path that has no non-hidden entry (`rmSync` is
recursive, so anything still inside — hidden files — goes with it); returns
the number of directories removed. -/
def cleanupEmptyDirs (basePath : String) (v : OVault) : OVault × Nat :=
  let candidates := v.dirs.filter (fun d =>
    match relComponents basePath d with
    | some [e] => ¬ isHiddenComp e
    | _ => false)
  let toRemove := candidates.filter (fun d => ¬ hasVisibleEntry v d)
  let inRemoved := fun (p : String) =>
    toRemove.contains p ∨ toRemove.any (fun d => isLeadOf (d ++ "/").data p.data)
  ({ files := v.files.filter (fun f => ¬ inRemoved f.dir),
     dirs := v.dirs.filter (fun d => ¬ inRemoved d) }, toRemove.length)

/-- Spec-side characterization (for the idempotence claim): the folder a
note's assigned category sends it to. -/
def targetFolder (p : String) (cats : List (String × String)) (n : ONote) : String :=
  joinP p (sanitizeFilename (jsGetOr cats n.id config.uncategorizedFolder))

/-- Spec-side characterization: the directory holding the file named `name`
(initially at `dir0`) after the move phase, assuming no two files share a
name. -/
def movedDir (p : String) (cats : List (String × String)) (notes : List ONote)
    (name dir0 : String) : String :=
  match notes.find? (fun n => n.name = name) with
  | some n => targetFolder p cats n
  | none => dir0

/-- Spec-side characterization: the file list after the move phase, assuming
no two files share a name. -/
def applyMoves (p : String) (cats : List (String × String)) (notes : List ONote)
    (files : List VFile) : List VFile :=
  files.map (fun f => { f with dir := movedDir p cats notes f.name f.dir })

/-- Spec-side characterization: one rename step, as it acts when no two
files share a name — the (unique) file with the given name changes
directory. -/
def singleMove (name target : String) (f : VFile) : VFile :=
  if f.name = name then { f with dir := target } else f

/-- A minimal parseable vault document (used for concrete instantiation of
the organizer runs). -/
def sampleNoteContent : String :=
  "---\nid: \"1\"\n---\n\n# Tweet by @u\n\nhello\n\n[View on Twitter](x)\n"

/-- End-of-run statistics of one organizer run. -/
structure OrganizeStats where
  notesCount : Nat
  parseErrors : Nat
  moved : Nat
  skipped : Nat
  cleaned : Nat
deriving DecidableEq

/-- The organizer `main` of `organize.js`, from the scan of the selected
subtree onward: enumerate, parse, categorize in batches, move, and (when not
in dry run) clean up empty folders.  The interactive prompts and the optional
backup copy (written outside the organized subtree) do not affect the
subtree and are not modeled; the per-batch oracle replies are inputs. -/
def organizerRun (basePath : String) (replies : List (Option String)) (dryRun : Bool)
    (v : OVault) : OVault × OrganizeStats :=
  let allFiles := enumerateFiles basePath v
  if allFiles.isEmpty then (v, ⟨0, 0, 0, 0, 0⟩)
  else
    let pn := parseVaultNotes allFiles
    if pn.1.isEmpty then (v, ⟨0, pn.2, 0, 0, 0⟩)
    else
      let allCategories := computeAllCategories pn.1 replies
      let mv := organizeMoves basePath allCategories dryRun pn.1 v
      if dryRun then (mv.1, ⟨pn.1.length, pn.2, mv.2.1, mv.2.2, 0⟩)
      else
        let cl := cleanupEmptyDirs basePath mv.1
        (cl.1, ⟨pn.1.length, pn.2, mv.2.1, mv.2.2, cl.2⟩)

/-! ## Helper lemmas -/

/-- Soundness and completeness of `jsonBeq` (with its list companions), by
strong induction on size. -/
theorem jsonBeqTriple : ∀ n : Nat,
    (∀ a b : Json, sizeOf a ≤ n → (jsonBeq a b = true ↔ a = b)) ∧
    (∀ xs ys : List Json, sizeOf xs ≤ n → (jsonBeqL xs ys = true ↔ xs = ys)) ∧
    (∀ xs ys : List (String × Json), sizeOf xs ≤ n → (jsonBeqF xs ys = true ↔ xs = ys)) := by
  intro n
  induction n with
  | zero =>
    refine ⟨?_, ?_, ?_⟩
    · intro a b h; exact absurd h (by cases a <;> simp)
    · intro xs ys h; exact absurd h (by cases xs <;> simp)
    · intro xs ys h; exact absurd h (by cases xs <;> simp)
  | succ n ih =>
    obtain ⟨ihJ, ihL, ihF⟩ := ih
    refine ⟨?_, ?_, ?_⟩
    · intro a b h
      cases a <;> cases b <;> simp only [jsonBeq] <;>
        first
          | (simp; done)
          | (apply Iff.trans (ihL _ _ (by simp at h; omega)); simp)
          | (apply Iff.trans (ihF _ _ (by simp at h; omega)); simp)
    · intro xs ys h
      cases xs with
      | nil => cases ys <;> simp [jsonBeqL]
      | cons x xs =>
        cases ys with
        | nil => simp [jsonBeqL]
        | cons y ys =>
          have h1 : sizeOf x ≤ n := by simp at h; omega
          have h2 : sizeOf xs ≤ n := by simp at h; omega
          simp [jsonBeqL, Bool.and_eq_true, ihJ x y h1, ihL xs ys h2]
    · intro xs ys h
      cases xs with
      | nil => cases ys <;> simp [jsonBeqF]
      | cons p xs =>
        obtain ⟨k, v⟩ := p
        cases ys with
        | nil => simp [jsonBeqF]
        | cons p2 ys =>
          obtain ⟨k2, v2⟩ := p2
          have h1 : sizeOf v ≤ n := by simp at h; omega
          have h2 : sizeOf xs ≤ n := by simp at h; omega
          simp [jsonBeqF, Bool.and_eq_true, ihJ v v2 h1, ihF xs ys h2, and_assoc]

/-- JSON boolean equality decides propositional equality. -/
theorem jsonBeq_iff (a b : Json) : jsonBeq a b = true ↔ a = b :=
  (jsonBeqTriple (sizeOf a)).1 a b le_rfl

/-- `jsonMem` is list membership. -/
theorem jsonMem_iff (x : Json) (l : List Json) : jsonMem x l = true ↔ x ∈ l := by
  simp [jsonMem, List.any_eq_true, jsonBeq_iff]

/-- Folding `jsonSetAdd` over fresh duplicate-free elements appends them. -/
theorem foldl_setAdd_of_nodup :
    ∀ (l acc : List Json), (∀ x ∈ l, x ∉ acc) → l.Nodup →
      List.foldl jsonSetAdd acc l = acc ++ l := by
  intro l
  induction l with
  | nil => intro acc _ _; simp
  | cons x xs ih =>
    intro acc hdisj hnd
    have hx : jsonMem x acc = false := by
      rw [← Bool.not_eq_true, jsonMem_iff]
      exact hdisj x (List.mem_cons_self x xs)
    have step : jsonSetAdd acc x = acc ++ [x] := by simp [jsonSetAdd, hx]
    have hd2 : ∀ y ∈ xs, y ∉ acc ++ [x] := by
      intro y hy
      simp only [List.mem_append, List.mem_singleton]
      rintro (hc | hc)
      · exact hdisj y (List.mem_cons_of_mem x hy) hc
      · exact (List.nodup_cons.1 hnd).1 (hc ▸ hy)
    calc List.foldl jsonSetAdd acc (x :: xs)
        = List.foldl jsonSetAdd (acc ++ [x]) xs := by rw [List.foldl_cons, step]
      _ = (acc ++ [x]) ++ xs := ih (acc ++ [x]) hd2 (List.nodup_cons.1 hnd).2
      _ = acc ++ x :: xs := by simp

/-- `new Set` on a duplicate-free list is the identity. -/
theorem jsNewSet_id (l : List Json) (h : l.Nodup) : jsNewSet l = l := by
  simpa using foldl_setAdd_of_nodup l [] (by simp) h

/-- `jsonMem` is false exactly on non-members. -/
theorem jsonMem_eq_false_iff (x : Json) (l : List Json) : jsonMem x l = false ↔ x ∉ l := by
  rw [← jsonMem_iff]
  cases jsonMem x l <;> simp

/-- A present `processedIds` member forces the document to be an object (the
key is not a canonical index, so array/string indexing yields nothing). -/
theorem idxAccess_processedIds_obj (j v : Json)
    (h : jsonIndexAccess j "processedIds" = some v) :
    ∃ fields, j = Json.obj fields ∧ lookupField fields "processedIds" = some v := by
  cases j <;>
    simp [jsonIndexAccess, show canonIndex "processedIds" = none from rfl] at h
  case obj fields => exact ⟨fields, rfl, h⟩

/-- `loadFromDoc` through an iterable `processedIds` member. -/
theorem loadFromDoc_idx_iter (j v : Json) (elems : List Json)
    (hidx : jsonIndexAccess j "processedIds" = some v) (hit : jsIterate v = some elems) :
    loadFromDoc j = jsNewSet elems := by
  obtain ⟨fields, rfl, _⟩ := idxAccess_processedIds_obj j v hidx
  simp only [loadFromDoc]
  rw [hidx]
  cases v <;> dsimp only <;>
    first
      | rw [hit]
      | exact absurd hit (by simp [jsIterate])

/-- `loadFromDoc` through a non-iterable, non-null `processedIds` member. -/
theorem loadFromDoc_idx_noiter (j v : Json)
    (hidx : jsonIndexAccess j "processedIds" = some v) (hv : v ≠ Json.null)
    (hit : jsIterate v = none) :
    loadFromDoc j = [] := by
  obtain ⟨fields, rfl, _⟩ := idxAccess_processedIds_obj j v hidx
  simp only [loadFromDoc]
  rw [hidx]
  cases v <;> dsimp only <;>
    first
      | rfl
      | rw [hit]

/-- `loadFromDoc` through a `null` `processedIds` member. -/
theorem loadFromDoc_idx_null (j : Json)
    (hidx : jsonIndexAccess j "processedIds" = some Json.null) :
    loadFromDoc j = [] := by
  obtain ⟨fields, rfl, _⟩ := idxAccess_processedIds_obj j Json.null hidx
  simp only [loadFromDoc]
  rw [hidx]

/-- `loadFromDoc` when the `processedIds` member is absent. -/
theorem loadFromDoc_of_no_idx (j : Json)
    (hidx : jsonIndexAccess j "processedIds" = none) :
    loadFromDoc j = [] := by
  cases j <;>
    first
      | rfl
      | (simp only [loadFromDoc]; rw [hidx])

/-- Looking up, in the association list built over the tweet list by an
id-determined value function, the id of a member tweet. -/
theorem lookupStr_map_id (g : String → String) :
    ∀ (l : List Tweet) (t : Tweet), t ∈ l →
      lookupStr (l.map (fun x => (x.id, g x.id))) t.id = some (g t.id) := by
  intro l
  induction l with
  | nil => intro t ht; cases ht
  | cons x xs ih =>
    intro t ht
    simp only [List.map_cons, lookupStr]
    by_cases hx : x.id = t.id
    · simp [hx]
    · rw [if_neg hx]
      rcases List.mem_cons.1 ht with rfl | hmem
      · exact absurd rfl hx
      · exact ih t hmem

/-- A list leads itself extended by anything. -/
theorem isLeadOf_self_append : ∀ (l r : List Char), isLeadOf l (l ++ r) = true := by
  intro l r
  induction l with
  | nil => rfl
  | cons c cs ih => simp [isLeadOf, ih]

/-- Leading-segment test against an extended list, when the candidate is no
longer than the unextended part. -/
theorem isLeadOf_append_of_le :
    ∀ (p b r : List Char), p.length ≤ b.length → isLeadOf p (b ++ r) = isLeadOf p b := by
  intro p
  induction p with
  | nil => intro b r h; rfl
  | cons c ps ih =>
    intro b r h
    cases b with
    | nil => simp at h
    | cons d bs =>
      simp only [List.cons_append, isLeadOf, List.append_eq]
      simp only [ih bs r (by simpa using h)]

/-- String concatenation acts on the underlying character lists. -/
theorem strData_append (a b : String) : (a ++ b).data = a.data ++ b.data := rfl

/-- Every computed tweet write path lies under the bookmarks base folder and
never under the likes folder. -/
theorem tweetWritePath_under (now : String) (t : Tweet) (cat : String) :
    underBookmarks (tweetWritePath now t cat) = true ∧
    underLikes (tweetWritePath now t cat) = false := by
  constructor
  · show isLeadOf (joinP config.vaultPath config.bookmarksFolder ++ "/").data
      (tweetWritePath now t cat).data = true
    have : (tweetWritePath now t cat).data =
        (joinP config.vaultPath config.bookmarksFolder ++ "/").data ++
          ((sanitizeFilename cat ++ "/") ++ (generateFilename now t ++ ".md")).data := by
      simp [tweetWritePath, joinP, strData_append]
    rw [this, isLeadOf_self_append]
  · show isLeadOf (joinP config.vaultPath config.likesFolder ++ "/").data
      (tweetWritePath now t cat).data = false
    have hdata : (tweetWritePath now t cat).data =
        (joinP config.vaultPath config.bookmarksFolder).data ++
          ("/" ++ (sanitizeFilename cat ++ ("/" ++ (generateFilename now t ++ ".md")))).data := by
      simp [tweetWritePath, joinP, strData_append]
    rw [hdata, isLeadOf_append_of_le _ _ _ (by decide)]
    decide

/-- What a successful `saveTweetToVault` returns: the computed path, a world
with the same failing-path set and state file, and at most one new file (at
the computed path). -/
theorem saveTweetToVault_ok_spec :
    ∀ (now : String) (t : Tweet) (cat : String) (dry : Bool) (w w' : World) (p : String),
      saveTweetToVault now t cat dry w = Except.ok (w', p) →
      p = tweetWritePath now t cat ∧ w'.failWrites = w.failWrites ∧
      w'.likesState = w.likesState ∧
      (∀ e, e ∈ w'.files → e ∈ w.files ∨ e.1 = tweetWritePath now t cat) := by
  intro now t cat dry w w' p h
  simp only [saveTweetToVault] at h
  split at h
  · rw [Except.ok.injEq, Prod.mk.injEq] at h
    obtain ⟨hw, hp⟩ := h
    subst hw
    refine ⟨hp.symm, ?_, ?_, ?_⟩ <;> split <;> simp_all
  · split at h
    · exact absurd h (by simp)
    · rw [Except.ok.injEq, Prod.mk.injEq] at h
      obtain ⟨hw, hp⟩ := h
      subst hw
      refine ⟨hp.symm, ?_, ?_, ?_⟩ <;> split <;>
        simp_all [fsWrite, tweetWritePath, joinP]

/-- Files present after the write loop were present before or live under the
bookmarks base. -/
theorem saveTweetsLoop_files_under :
    ∀ (now : String) (cats : List (String × String)) (dry : Bool) (ts : List Tweet)
      (w : World) (acc : List SaveResult) (e : String × String),
      e ∈ (saveTweetsLoop now cats dry ts w acc).1.files →
      e ∈ w.files ∨ underBookmarks e.1 = true := by
  intro now cats dry ts
  induction ts with
  | nil => intro w acc e he; exact Or.inl he
  | cons t rest ih =>
    intro w acc e he
    simp only [saveTweetsLoop] at he
    cases hsv : saveTweetToVault now t (jsGetOr cats t.id config.uncategorizedFolder) dry w with
    | error msg =>
      simp only [hsv] at he
      exact ih w acc e he
    | ok pr =>
      obtain ⟨w2, path⟩ := pr
      simp only [hsv] at he
      rcases ih w2 _ e he with h2 | h2
      · obtain ⟨hp, _, _, hf⟩ := saveTweetToVault_ok_spec now t _ dry w w2 path hsv
        rcases hf e h2 with h3 | h3
        · exact Or.inl h3
        · exact Or.inr (h3 ▸ (tweetWritePath_under now t _).1)
      · exact Or.inr h2

/-- Files present after `saveTweetsToVault` were present before or live under
the bookmarks base. -/
theorem saveTweetsToVault_files_under :
    ∀ (now : String) (ts : List Tweet) (cats : List (String × String)) (dry : Bool)
      (w : World) (e : String × String),
      e ∈ (saveTweetsToVault now ts cats dry w).1.files →
      e ∈ w.files ∨ underBookmarks e.1 = true := by
  intro now ts cats dry w e he
  simp only [saveTweetsToVault] at he
  rcases saveTweetsLoop_files_under now cats dry ts _ [] e he with h | h
  · by_cases hc : ¬ dry = true ∧ joinP config.vaultPath config.bookmarksFolder ∉ w.dirs
    · simp only [if_pos hc] at h; exact Or.inl h
    · simp only [if_neg hc] at h; exact Or.inl h
  · exact Or.inr h

/-- `saveLikesStateW` touches only the state file and the directory
inventory. -/
theorem saveLikesStateW_files (now : String) (pids : List Json) (w : World) :
    (saveLikesStateW now pids w).files = w.files := by
  simp only [saveLikesStateW]
  split <;> rfl

/-- Files present after one batch iteration were present before or live under
the bookmarks base. -/
theorem processBatch_files_under :
    ∀ (now : String) (dry : Bool) (b : List Tweet) (reply : Option String) (s : LikesState)
      (e : String × String),
      e ∈ ((processBatch now dry b reply s).1).world.files →
      e ∈ s.world.files ∨ underBookmarks e.1 = true := by
  intro now dry b reply s e he
  simp only [processBatch] at he
  split at he
  · exact saveTweetsToVault_files_under now b _ dry s.world e he
  · rw [saveLikesStateW_files] at he
    exact saveTweetsToVault_files_under now b _ dry s.world e he

/-- Files present after the batch loop were present before or live under the
bookmarks base. -/
theorem runOn_files_under :
    ∀ (now : String) (dry : Bool) (pairs : List (List Tweet × Option String)) (s : LikesState)
      (e : String × String),
      e ∈ ((runOn now dry pairs s).1).world.files →
      e ∈ s.world.files ∨ underBookmarks e.1 = true := by
  intro now dry pairs
  induction pairs with
  | nil => intro s e he; exact Or.inl he
  | cons p rest ih =>
    intro s e he
    obtain ⟨b, reply⟩ := p
    simp only [runOn] at he
    rcases ih _ e he with h | h
    · exact processBatch_files_under now dry b reply s e h
    · exact Or.inr h

/-- Files present after a likes sync run were present before or live under
the bookmarks base. -/
theorem runLikes_files_under :
    ∀ (now : String) (dryRun : Bool) (readdir : String → Option (List Entry))
      (likes : List Tweet) (replies : List (Option String)) (w : World) (e : String × String),
      e ∈ (runLikes now dryRun readdir likes replies w).1.files →
      e ∈ w.files ∨ underBookmarks e.1 = true := by
  intro now dryRun readdir likes replies w e he
  simp only [runLikes] at he
  split at he
  · exact Or.inl he
  · split at he
    · exact Or.inl he
    · exact runOn_files_under now dryRun _ _ e he

/-- C2: `saveTweetToVault` (hence `saveTweetsToVault`) writes under
`config.bookmarksFolder` unconditionally — the likes orchestrator's extra
folder argument corresponds to no declared parameter and cannot influence the
path, which always lies under the bookmarks base and never under the likes
folder — and `getExistingCategories` ignores its argument and reads only the
listing of the bookmarks folder; consequently every file the likes pipeline
creates lives under the bookmarks base folder. -/
theorem likes_write_into_bookmarks :
    (∀ (readdir : String → Option (List Entry)) (a b : String),
      getExistingCategories readdir a = getExistingCategories readdir b) ∧
    (∀ (readdir readdir' : String → Option (List Entry)) (a a' : String),
      readdir (joinP config.vaultPath config.bookmarksFolder) =
        readdir' (joinP config.vaultPath config.bookmarksFolder) →
      getExistingCategories readdir a = getExistingCategories readdir' a') ∧
    (∀ now t cat dry (w w' : World) p,
      saveTweetToVault now t cat dry w = Except.ok (w', p) →
      p = tweetWritePath now t cat ∧ underBookmarks p = true ∧ underLikes p = false) ∧
    (∀ now dryRun readdir likes replies (w : World) e,
      e ∈ (runLikes now dryRun readdir likes replies w).1.files →
      e ∈ w.files ∨ underBookmarks e.1 = true) := by
  refine ⟨fun readdir a b => rfl, ?_, ?_, ?_⟩
  · intro readdir readdir' a a' h
    simp only [getExistingCategories]
    rw [h]
  · intro now t cat dry w w' p h
    obtain ⟨hp, _, _, _⟩ := saveTweetToVault_ok_spec now t cat dry w w' p h
    subst hp
    exact ⟨rfl, (tweetWritePath_under now t cat).1, (tweetWritePath_under now t cat).2⟩
  · exact runLikes_files_under

/-- The returned mapping of `categorizeBatch` does not depend on the
`existingCategories` argument (which shapes only the prompt and the console
output). -/
theorem categorizeBatch_ex_irrel (ts : List Tweet) (ex ex' : List String)
    (r : Option String) : categorizeBatch ts ex r = categorizeBatch ts ex' r := by
  cases r <;> rfl

/-- In dry run, `saveTweetToVault` computes the path and content but returns
the world unchanged. -/
theorem saveTweetToVault_dry (now : String) (t : Tweet) (cat : String) (w : World) :
    saveTweetToVault now t cat true w = Except.ok (w, tweetWritePath now t cat) := rfl

/-- In dry run, the write loop leaves the world unchanged. -/
theorem saveTweetsLoop_dry (now : String) (cats : List (String × String)) :
    ∀ (ts : List Tweet) (w : World) (acc : List SaveResult),
      (saveTweetsLoop now cats true ts w acc).1 = w := by
  intro ts
  induction ts with
  | nil => intro w acc; rfl
  | cons t rest ih =>
    intro w acc
    simp only [saveTweetsLoop, saveTweetToVault_dry]
    exact ih w _

/-- In dry run, `saveTweetsToVault` leaves the world unchanged. -/
theorem saveTweetsToVault_dry_world (now : String) (ts : List Tweet)
    (cats : List (String × String)) (w : World) :
    (saveTweetsToVault now ts cats true w).1 = w := by
  simp only [saveTweetsToVault]
  rw [if_neg (by simp)]
  exact saveTweetsLoop_dry now cats ts w []

/-- In dry run, one batch iteration changes neither the world nor the
processed set. -/
theorem processBatch_dry (now : String) (b : List Tweet) (reply : Option String)
    (s : LikesState) :
    (processBatch now true b reply s).1.world = s.world ∧
    (processBatch now true b reply s).1.processedIds = s.processedIds := by
  constructor
  · show (processBatch now true b reply s).1.world = s.world
    simp only [processBatch, if_true]
    exact saveTweetsToVault_dry_world now b _ s.world
  · rfl

/-- In dry run, the batch loop changes neither the world nor the processed
set. -/
theorem runOn_dry (now : String) :
    ∀ (pairs : List (List Tweet × Option String)) (s : LikesState),
      (runOn now true pairs s).1.world = s.world ∧
      (runOn now true pairs s).1.processedIds = s.processedIds := by
  intro pairs
  induction pairs with
  | nil => intro s; exact ⟨rfl, rfl⟩
  | cons p rest ih =>
    intro s
    obtain ⟨b, reply⟩ := p
    simp only [runOn]
    obtain ⟨h1, h2⟩ := ih (processBatch now true b reply s).1
    obtain ⟨g1, g2⟩ := processBatch_dry now b reply s
    exact ⟨h1.trans g1, h2.trans g2⟩

/-- One batch iteration always returns the batch's category mapping,
regardless of mode and state. -/
theorem processBatch_trace (now : String) (d : Bool) (b : List Tweet)
    (reply : Option String) (s : LikesState) :
    (processBatch now d b reply s).2 = categorizeBatch b [] reply := by
  simp only [processBatch]
  split <;> exact categorizeBatch_ex_irrel b s.existingCategories [] reply

/-- The per-batch category mappings collected by the batch loop depend only
on the batches and their oracle replies. -/
theorem runOn_trace (now : String) (d : Bool) :
    ∀ (pairs : List (List Tweet × Option String)) (s : LikesState),
      (runOn now d pairs s).2 = pairs.map (fun p => categorizeBatch p.1 [] p.2) := by
  intro pairs
  induction pairs with
  | nil => intro s; rfl
  | cons p rest ih =>
    intro s
    obtain ⟨b, reply⟩ := p
    simp only [runOn, List.map_cons]
    exact congrArg₂ _ (processBatch_trace now d b reply s) (ih _)

/-- A non-dry `saveTweetToVault` either fails (exactly when the computed path
is a failing path) or succeeds with the computed path, preserving the
failing-path set and the state file. -/
theorem saveTweetToVault_false_cases (now : String) (t : Tweet) (cat : String) (w : World) :
    (tweetWritePath now t cat ∈ w.failWrites ∧
      saveTweetToVault now t cat false w = Except.error "write failed") ∨
    (tweetWritePath now t cat ∉ w.failWrites ∧
      ∃ w2, saveTweetToVault now t cat false w = Except.ok (w2, tweetWritePath now t cat) ∧
        w2.failWrites = w.failWrites ∧ w2.likesState = w.likesState) := by
  by_cases h : tweetWritePath now t cat ∈ w.failWrites
  · left
    refine ⟨h, ?_⟩
    simp only [saveTweetToVault]
    rw [if_neg (by simp), if_pos (by simpa [tweetWritePath] using h)]
  · right
    refine ⟨h, ?_⟩
    simp only [saveTweetToVault]
    rw [if_neg (by simp), if_neg (by simpa [tweetWritePath] using h)]
    refine ⟨_, rfl, ?_, ?_⟩ <;> split <;> rfl

/-- The non-dry write loop: the failing-path set and state file pass through
unchanged, and the results are exactly the writable tweets with their
computed paths and categories, in batch order. -/
theorem saveTweetsLoop_false_spec (now : String) (cats : List (String × String)) :
    ∀ (ts : List Tweet) (w : World) (acc : List SaveResult),
      (saveTweetsLoop now cats false ts w acc).1.failWrites = w.failWrites ∧
      (saveTweetsLoop now cats false ts w acc).1.likesState = w.likesState ∧
      (saveTweetsLoop now cats false ts w acc).2 =
        acc ++ (writableTweets now cats w.failWrites ts).map
          (fun t => ⟨t, tweetWritePath now t (jsGetOr cats t.id config.uncategorizedFolder),
            jsGetOr cats t.id config.uncategorizedFolder⟩) := by
  intro ts
  induction ts with
  | nil => intro w acc; exact ⟨rfl, rfl, by simp [writableTweets, saveTweetsLoop]⟩
  | cons t rest ih =>
    intro w acc
    rcases saveTweetToVault_false_cases now t (jsGetOr cats t.id config.uncategorizedFolder) w
      with ⟨hf, hsv⟩ | ⟨hf, w2, hsv, hfw, hls⟩
    · have hw : writableTweets now cats w.failWrites (t :: rest) =
          writableTweets now cats w.failWrites rest := by
        simp [writableTweets, List.filter_cons, hf]
      simp only [saveTweetsLoop, hsv, hw]
      exact ih w acc
    · have hw : writableTweets now cats w.failWrites (t :: rest) =
          t :: writableTweets now cats w.failWrites rest := by
        simp [writableTweets, List.filter_cons, hf]
      simp only [saveTweetsLoop, hsv, hw]
      obtain ⟨h1, h2, h3⟩ := ih w2
        (acc ++ [⟨t, tweetWritePath now t (jsGetOr cats t.id config.uncategorizedFolder),
          jsGetOr cats t.id config.uncategorizedFolder⟩])
      rw [hfw] at h1 h3
      rw [hls] at h2
      refine ⟨h1, h2, ?_⟩
      rw [h3]
      simp [List.append_assoc]

/-- The non-dry `saveTweetsToVault`: failing paths and state file unchanged,
results are exactly the writable tweets. -/
theorem saveTweetsToVault_false_spec (now : String) (cats : List (String × String))
    (ts : List Tweet) (w : World) :
    (saveTweetsToVault now ts cats false w).1.failWrites = w.failWrites ∧
    (saveTweetsToVault now ts cats false w).1.likesState = w.likesState ∧
    (saveTweetsToVault now ts cats false w).2 =
      (writableTweets now cats w.failWrites ts).map
        (fun t => ⟨t, tweetWritePath now t (jsGetOr cats t.id config.uncategorizedFolder),
          jsGetOr cats t.id config.uncategorizedFolder⟩) := by
  simp only [saveTweetsToVault]
  by_cases hc : ¬ false = true ∧ joinP config.vaultPath config.bookmarksFolder ∉ w.dirs
  · rw [if_pos hc]
    simpa using saveTweetsLoop_false_spec now cats ts _ []
  · rw [if_neg hc]
    simpa using saveTweetsLoop_false_spec now cats ts w []

/-- `saveLikesStateW` preserves the failing-path set. -/
theorem saveLikesStateW_failWrites (now : String) (pids : List Json) (w : World) :
    (saveLikesStateW now pids w).failWrites = w.failWrites := by
  simp only [saveLikesStateW]
  split <;> rfl

/-- Membership in a set after `Set.add`. -/
theorem mem_jsonSetAdd_iff (l : List Json) (x y : Json) :
    y ∈ jsonSetAdd l x ↔ y ∈ l ∨ y = x := by
  unfold jsonSetAdd
  split
  · rename_i hmem
    constructor
    · exact Or.inl
    · rintro (h | rfl)
      · exact h
      · exact (jsonMem_iff y l).1 hmem
  · simp

/-- Membership after folding the written items into the processed set. -/
theorem mem_addProcessed_iff :
    ∀ (rs : List SaveResult) (pids : List Json) (x : Json),
      x ∈ addProcessed rs pids ↔ x ∈ pids ∨ ∃ r ∈ rs, x = Json.str r.tweet.id := by
  intro rs
  induction rs with
  | nil => intro pids x; simp [addProcessed]
  | cons r rest ih =>
    intro pids x
    rw [addProcessed, ih, mem_jsonSetAdd_iff]
    constructor
    · rintro ((h | h) | ⟨r2, hr2, hx⟩)
      · exact Or.inl h
      · exact Or.inr ⟨r, List.mem_cons_self r rest, h⟩
      · exact Or.inr ⟨r2, List.mem_cons_of_mem r hr2, hx⟩
    · rintro (h | ⟨r2, hr2, hx⟩)
      · exact Or.inl (Or.inl h)
      · rcases List.mem_cons.1 hr2 with rfl | hr2
        · exact Or.inl (Or.inr hx)
        · exact Or.inr ⟨r2, hr2, hx⟩

/-- One non-dry batch iteration: the processed set receives exactly the
successful writes, the state file is written with the updated set, and the
failing-path set passes through. -/
theorem processBatch_false_spec (now : String) (b : List Tweet) (reply : Option String)
    (s : LikesState) :
    (processBatch now false b reply s).1.processedIds =
      addProcessed (saveTweetsToVault now b (categorizeBatch b s.existingCategories reply)
        false s.world).2 s.processedIds ∧
    (processBatch now false b reply s).1.world.likesState =
      some (saveLikesStateDoc ((processBatch now false b reply s).1.processedIds) now) ∧
    (processBatch now false b reply s).1.world.failWrites = s.world.failWrites := by
  refine ⟨rfl, rfl, ?_⟩
  show (saveLikesStateW now _ _).failWrites = s.world.failWrites
  rw [saveLikesStateW_failWrites]
  exact (saveTweetsToVault_false_spec now _ b s.world).1

/-- The batch loop never removes an identifier from the processed set. -/
theorem runOn_false_pids_mono (now : String) :
    ∀ (pairs : List (List Tweet × Option String)) (s : LikesState) (x : Json),
      x ∈ s.processedIds → x ∈ (runOn now false pairs s).1.processedIds := by
  intro pairs
  induction pairs with
  | nil => intro s x h; exact h
  | cons p rest ih =>
    intro s x h
    obtain ⟨b, reply⟩ := p
    simp only [runOn]
    apply ih
    rw [(processBatch_false_spec now b reply s).1, mem_addProcessed_iff]
    exact Or.inl h

/-- Appending to the batch list composes the loop's final states. -/
theorem runOn_append_st (now : String) (d : Bool) :
    ∀ (a b : List (List Tweet × Option String)) (s : LikesState),
      (runOn now d (a ++ b) s).1 = (runOn now d b (runOn now d a s).1).1 := by
  intro a
  induction a with
  | nil => intro b s; rfl
  | cons p rest ih =>
    intro b s
    obtain ⟨batch, reply⟩ := p
    simp only [List.cons_append, runOn]
    exact ih b _

/-! ## The claims -/

/-- C7: in a non-dry run, after each batch the identifiers of exactly that
batch's successfully written items are folded into the in-memory processed
set and the state file is saved with the updated set before the next batch
begins (processing a batch list prefix then one more batch is exactly one
`processBatch` step from the intermediate state); an identifier enters the
set only if its item's write succeeded (the write results are exactly the
writable tweets of the batch), and the sync never removes an identifier. -/
theorem likes_batch_persistence :
    ∀ (now : String) (pre : List (List Tweet × Option String)) (batch : List Tweet)
      (reply : Option String) (s0 : LikesState),
      ((runOn now false (pre ++ [(batch, reply)]) s0).1 =
        (processBatch now false batch reply (runOn now false pre s0).1).1) ∧
      ((saveTweetsToVault now batch
          (categorizeBatch batch (runOn now false pre s0).1.existingCategories reply) false
          (runOn now false pre s0).1.world).2 =
        (writableTweets now
          (categorizeBatch batch (runOn now false pre s0).1.existingCategories reply)
          (runOn now false pre s0).1.world.failWrites batch).map
          (fun t => ⟨t, tweetWritePath now t
              (jsGetOr (categorizeBatch batch (runOn now false pre s0).1.existingCategories
                reply) t.id config.uncategorizedFolder),
            jsGetOr (categorizeBatch batch (runOn now false pre s0).1.existingCategories
              reply) t.id config.uncategorizedFolder⟩)) ∧
      ((processBatch now false batch reply (runOn now false pre s0).1).1.processedIds =
        addProcessed (saveTweetsToVault now batch
          (categorizeBatch batch (runOn now false pre s0).1.existingCategories reply) false
          (runOn now false pre s0).1.world).2 (runOn now false pre s0).1.processedIds) ∧
      (∀ x, x ∈ (processBatch now false batch reply (runOn now false pre s0).1).1.processedIds ↔
        x ∈ (runOn now false pre s0).1.processedIds ∨
          ∃ r ∈ (saveTweetsToVault now batch
            (categorizeBatch batch (runOn now false pre s0).1.existingCategories reply) false
            (runOn now false pre s0).1.world).2, x = Json.str r.tweet.id) ∧
      ((processBatch now false batch reply (runOn now false pre s0).1).1.world.likesState =
        some (saveLikesStateDoc
          ((processBatch now false batch reply (runOn now false pre s0).1).1.processedIds)
          now)) ∧
      (∀ (bs : List (List Tweet × Option String)) (x : Json), x ∈ s0.processedIds →
        x ∈ (runOn now false bs s0).1.processedIds) := by
  intro now pre batch reply s0
  obtain ⟨hpids, hdoc, _⟩ := processBatch_false_spec now batch reply (runOn now false pre s0).1
  refine ⟨runOn_append_st now false pre [(batch, reply)] s0, ?_, hpids, ?_, hdoc, ?_⟩
  · exact (saveTweetsToVault_false_spec now _ batch (runOn now false pre s0).1.world).2.2
  · intro x
    rw [hpids, mem_addProcessed_iff]
  · exact fun bs x h => runOn_false_pids_mono now bs s0 x h

/-- Witness for C7 at a one-batch, one-item run with no failing paths: the
state file carries exactly the new identifier. -/
theorem likes_batch_persistence_witness :
    (processBatch "T" false [mkTweet "1"] none
        (runOn "T" false [] ⟨⟨[], [], none, []⟩, [], []⟩).1).1.world.likesState =
      some (saveLikesStateDoc [Json.str "1"] "T") :=
  (likes_batch_persistence "T" [] [mkTweet "1"] none
    ⟨⟨[], [], none, []⟩, [], []⟩).2.2.2.2.1.trans rfl

/-- C6: running the likes sync with `dryRun` set performs no filesystem
mutation and leaves the persisted state file unchanged — the final world
(files, directories, likes state file, all of it) is the initial world —
while computing exactly the per-batch category assignments of the non-dry
run on identical inputs. -/
theorem dry_run_no_mutation :
    ∀ (now : String) (readdir : String → Option (List Entry)) (likes : List Tweet)
      (replies : List (Option String)) (w : World),
      (runLikes now true readdir likes replies w).1 = w ∧
      (runLikes now true readdir likes replies w).2 =
        (runLikes now false readdir likes replies w).2 := by
  intro now readdir likes replies w
  by_cases h1 : likes.isEmpty
  · simp [runLikes, h1]
  · by_cases h2 : (findNewLikes likes (loadLikesState w.likesState)).isEmpty
    · simp [runLikes, h1, h2]
    · simp only [runLikes, h1, h2, Bool.false_eq_true, if_false]
      constructor
      · exact (runOn_dry now _ _).1
      · rw [runOn_trace, runOn_trace]

/-- C4: the diff operation returns exactly the items of the fetched list `F`
whose identifier is not in the processed set `P`, in `F`'s relative order (a
sublist of `F`), and returns `[]` when every fetched identifier is already
processed; `findNewLikes` is the same pure filter as `findNewBookmarks`
(both are non-mutating `Array.prototype.filter` calls). -/
theorem findNew_diff_spec :
    ∀ (F : List Tweet) (P : List Json),
      (findNewBookmarks F P).Sublist F ∧
      (∀ b : Tweet, b ∈ findNewBookmarks F P ↔ b ∈ F ∧ Json.str b.id ∉ P) ∧
      ((∀ b ∈ F, Json.str b.id ∈ P) → findNewBookmarks F P = []) ∧
      findNewLikes F P = findNewBookmarks F P := by
  intro F P
  refine ⟨List.filter_sublist F, ?_, ?_, rfl⟩
  · intro b
    rw [findNewBookmarks, List.mem_filter]
    simp [jsonMem_eq_false_iff]
  · intro hall
    rw [findNewBookmarks, List.filter_eq_nil_iff]
    intro b hb
    simp [jsonMem_iff, hall b hb]

/-- Witness for C4 at a concrete fetched list and processed set: every item
is processed, so the diff is empty. -/
theorem findNew_diff_spec_witness :
    findNewBookmarks [mkTweet "1"] [Json.str "1"] = [] :=
  (findNew_diff_spec [mkTweet "1"] [Json.str "1"]).2.2.1 (by intro b hb; simp at hb; simp [hb, mkTweet])

/-- C5: `save` immediately followed by `load` of the same kind returns a set
equal to the saved set, for both the bookmarks pair
(`saveState`/`loadState`) and the likes pair
(`saveLikesState`/`loadLikesState`); a JS `Set`'s element list is
duplicate-free, which is the `Nodup` hypothesis. -/
theorem state_save_load_roundtrip :
    ∀ (ids : List Json) (now : String), ids.Nodup →
      loadState (some (saveStateDoc ids now)) = ids ∧
      loadLikesState (some (saveLikesStateDoc ids now)) = ids := by
  intro ids now h
  exact ⟨jsNewSet_id ids h, jsNewSet_id ids h⟩

/-- Witness for C5 at a concrete two-element identifier set. -/
theorem state_save_load_roundtrip_witness :
    loadState (some (saveStateDoc [Json.str "1", Json.str "2"] "2026-01-01")) =
      [Json.str "1", Json.str "2"] :=
  (state_save_load_roundtrip [Json.str "1", Json.str "2"] "2026-01-01" (by simp)).1

/-- C10 counterexample: a parsed state document that is not of the expected
shape — its `processedIds` member is the string `"ab"` — makes `loadState`
(and `loadLikesState`) return the two-element set of its characters, not the
empty set the claim requires for every malformed document. -/
theorem loadState_shape_cex :
    loadState (some (Json.obj [("processedIds", Json.str "ab")])) =
      [Json.str "a", Json.str "b"] ∧
    loadState (some (Json.obj [("processedIds", Json.str "ab")])) ≠ [] ∧
    loadLikesState (some (Json.obj [("processedIds", Json.str "ab")])) ≠ [] := by
  refine ⟨rfl, ?_, ?_⟩
  · intro h
    rw [show loadState (some (Json.obj [("processedIds", Json.str "ab")])) =
      [Json.str "a", Json.str "b"] from rfl] at h
    exact List.cons_ne_nil _ _ h
  · intro h
    rw [show loadLikesState (some (Json.obj [("processedIds", Json.str "ab")])) =
      [Json.str "a", Json.str "b"] from rfl] at h
    exact List.cons_ne_nil _ _ h

/-- C10 (amended): `loadState`/`loadLikesState` never raise (they are total
functions), and return the empty set when the state file is missing,
unreadable or unparsable (`none`), when the parsed document is `null`, and
when its `processedIds` member is absent, `null`, or not iterable; but a
parsed document whose `processedIds` member is iterable — an array of
arbitrary values, or a string, which iterates its characters — yields the
set of that member's elements, which need not be empty. -/
theorem loadState_total_behavior :
    (loadState none = [] ∧ loadLikesState none = []) ∧
    (loadState (some Json.null) = [] ∧ loadLikesState (some Json.null) = []) ∧
    (∀ j, jsonIndexAccess j "processedIds" = none →
      loadState (some j) = [] ∧ loadLikesState (some j) = []) ∧
    (∀ j, jsonIndexAccess j "processedIds" = some Json.null →
      loadState (some j) = [] ∧ loadLikesState (some j) = []) ∧
    (∀ j v, jsonIndexAccess j "processedIds" = some v → v ≠ Json.null →
      jsIterate v = none →
      loadState (some j) = [] ∧ loadLikesState (some j) = []) ∧
    (∀ j v elems, jsonIndexAccess j "processedIds" = some v → jsIterate v = some elems →
      loadState (some j) = jsNewSet elems ∧ loadLikesState (some j) = jsNewSet elems) := by
  refine ⟨⟨rfl, rfl⟩, ⟨rfl, rfl⟩, ?_, ?_, ?_, ?_⟩
  · intro j h
    exact ⟨loadFromDoc_of_no_idx j h, loadFromDoc_of_no_idx j h⟩
  · intro j h
    exact ⟨loadFromDoc_idx_null j h, loadFromDoc_idx_null j h⟩
  · intro j v h hv hit
    exact ⟨loadFromDoc_idx_noiter j v h hv hit, loadFromDoc_idx_noiter j v h hv hit⟩
  · intro j v elems h hit
    exact ⟨loadFromDoc_idx_iter j v elems h hit, loadFromDoc_idx_iter j v elems h hit⟩

/-- Witness for the amended C10 at a concrete well-shaped document. -/
theorem loadState_total_behavior_witness :
    loadState (some (Json.obj [("processedIds", Json.arr [Json.str "x"])])) = [Json.str "x"] :=
  (loadState_total_behavior.2.2.2.2.2 (Json.obj [("processedIds", Json.arr [Json.str "x"])])
    (Json.arr [Json.str "x"]) [Json.str "x"] rfl rfl).1.trans rfl

/-- C3: when the oracle call throws (`none` reply) or its reply is not valid
JSON after trimming and optional code-fence stripping, `categorizeBatch`
returns the mapping that assigns the configured fallback label to every item
of the batch; being a total function, it raises nothing to its caller. -/
theorem categorizeBatch_failSoft :
    ∀ (tweets : List Tweet) (existing : List String) (reply : Option String),
      (reply = none ∨ ∃ raw, reply = some raw ∧ jsonParse (preprocessReply raw) = none) →
      categorizeBatch tweets existing reply =
        tweets.map (fun t => (t.id, config.uncategorizedFolder)) := by
  rintro tweets existing reply (rfl | ⟨raw, rfl, hparse⟩)
  · rfl
  · simp only [categorizeBatch]
    rw [hparse]

/-- Witness for C3 at a batch of two items and a non-JSON reply. -/
theorem categorizeBatch_failSoft_witness :
    categorizeBatch [mkTweet "1", mkTweet "2"] [] (some "oops") =
      [("1", "Uncategorized"), ("2", "Uncategorized")] :=
  (categorizeBatch_failSoft [mkTweet "1", mkTweet "2"] [] (some "oops")
    (Or.inr ⟨"oops", rfl, rfl⟩)).trans rfl

/-- C1 counterexample: the oracle reply assigns the item the three-character
label `'a'` (single-quoted).  After trimming the surrounding quote
characters its length is 1 — outside the 2–50 bound — so by the claim the
item should get the fallback label; the code instead validates the raw
label's length (3) before trimming, keeps it, and stores `a`. -/
theorem categorize_label_validation_cex :
    categorizeBatch [mkTweet "t1"] [] (some "\x7b\"t1\": \"\x27a\x27\"\x7d") = [("t1", "a")] ∧
    jsLen (jsTrim (trimQuotes "\x27a\x27")) = 1 ∧
    ("a" : String) ≠ config.uncategorizedFolder := by
  refine ⟨rfl, rfl, ?_⟩
  intro h
  exact absurd (congrArg String.length h) (by decide)

/-- C1 (amended): when the reply parses to a non-null JSON value, the label
an item receives is the quote/whitespace-cleaned result of validating the
raw looked-up value: the fallback label is substituted exactly when that
value is absent, not a string, or has raw length (before quote trimming)
outside 2–50 — in particular a 1-character or a 51-character label yields the
fallback — while a raw label within bounds survives validation and is stored
after cleanup, even if the cleanup leaves fewer than 2 characters. -/
theorem categorize_label_validation :
    ∀ (tweets : List Tweet) (existing : List String) (raw : String) (parsed : Json) (t : Tweet),
      jsonParse (preprocessReply raw) = some parsed → parsed ≠ Json.null → t ∈ tweets →
      lookupStr (categorizeBatch tweets existing (some raw)) t.id =
        some (categorizeTweetLabel config.uncategorizedFolder (jsonIndexAccess parsed t.id)) ∧
      (∀ s, jsonIndexAccess parsed t.id = some (Json.str s) →
        2 ≤ jsLen s ∧ jsLen s ≤ 50 →
        lookupStr (categorizeBatch tweets existing (some raw)) t.id =
          some (cleanupCategory s)) ∧
      (∀ s, jsonIndexAccess parsed t.id = some (Json.str s) →
        jsLen s < 2 ∨ 50 < jsLen s →
        lookupStr (categorizeBatch tweets existing (some raw)) t.id =
          some config.uncategorizedFolder) ∧
      (jsonIndexAccess parsed t.id = none →
        lookupStr (categorizeBatch tweets existing (some raw)) t.id =
          some config.uncategorizedFolder) := by
  intro tweets existing raw parsed t hparse hnull hmem
  have hred : categorizeBatch tweets existing (some raw) =
      tweets.map (fun x => (x.id, categorizeTweetLabel config.uncategorizedFolder
        (jsonIndexAccess parsed x.id))) := by
    simp only [categorizeBatch]
    rw [hparse]
    cases parsed <;> first | (exact absurd rfl hnull) | rfl
  rw [hred]
  have hbase := lookupStr_map_id
    (fun id => categorizeTweetLabel config.uncategorizedFolder (jsonIndexAccess parsed id))
    tweets t hmem
  refine ⟨hbase, ?_, ?_, ?_⟩
  · intro s hidx hb
    rw [hbase]
    dsimp only
    rw [hidx]
    simp [categorizeTweetLabel, hb.1, hb.2]
  · intro s hidx hb
    rw [hbase]
    dsimp only
    rw [hidx]
    have hnb : ¬ (2 ≤ jsLen s ∧ jsLen s ≤ 50) := by omega
    simp only [categorizeTweetLabel, if_neg hnb]
    rfl
  · intro hidx
    rw [hbase]
    dsimp only
    rw [hidx]
    rfl

/-- C9 counterexample: a failed fetch whose captured stdout is the text
`null` — which parses as JSON — still raises the fetch error, because the
recovery code's property access on the parsed `null` throws inside the
recovery `try`. -/
theorem fetch_recovery_cex :
    jsonParse "null" = some Json.null ∧
    fetchBookmarks [ExecOutcome.err "boom" (some "null") none] =
      Except.error "Failed to fetch bookmarks: boom" ∧
    fetchLikes [ExecOutcome.err "boom" (some "null") none] =
      Except.error "Failed to fetch likes: boom" :=
  ⟨rfl, rfl, rfl⟩

/-- C9 (amended): the Fetcher never re-invokes the subprocess (its result
depends only on the first outcome of the stream), and on a process failure it
makes exactly one recovery attempt: captured non-empty stdout that parses as
JSON to a usable value (anything but `null`) yields the recovered items
instead of raising, while absent, empty or unparsable stdout — or stdout
parsing to `null`, whose property access throws inside the recovery `try` —
raises a fetch error carrying the process's error message. -/
theorem fetch_failure_recovery :
    (∀ (e : ExecOutcome) (r r' : List ExecOutcome),
      fetchBookmarks (e :: r) = fetchBookmarks (e :: r') ∧
      fetchLikes (e :: r) = fetchLikes (e :: r')) ∧
    (∀ msg out se parsed items, jsonParse out = some parsed →
      coerceTweets parsed = some items → out ≠ "" →
      fetchBookmarks [ExecOutcome.err msg (some out) se] = Except.ok items ∧
      fetchLikes [ExecOutcome.err msg (some out) se] = Except.ok items) ∧
    (∀ msg se, fetchBookmarks [ExecOutcome.err msg none se] =
        Except.error ("Failed to fetch bookmarks: " ++ msg) ∧
      fetchLikes [ExecOutcome.err msg none se] =
        Except.error ("Failed to fetch likes: " ++ msg)) ∧
    (∀ msg out se, (out = "" ∨ jsonParse out = none ∨ jsonParse out = some Json.null) →
      fetchBookmarks [ExecOutcome.err msg (some out) se] =
        Except.error ("Failed to fetch bookmarks: " ++ msg) ∧
      fetchLikes [ExecOutcome.err msg (some out) se] =
        Except.error ("Failed to fetch likes: " ++ msg)) := by
  refine ⟨fun e r r' => ⟨rfl, rfl⟩, ?_, fun msg se => ⟨rfl, rfl⟩, ?_⟩
  · intro msg out se parsed items hp hc hne
    constructor <;>
      · simp only [fetchBookmarks, fetchLikes, if_neg hne, hp, hc]
  · intro msg out se h
    rcases h with rfl | hp | hp
    · exact ⟨rfl, rfl⟩
    · by_cases hout : out = ""
      · subst hout; exact ⟨rfl, rfl⟩
      · constructor <;> · simp only [fetchBookmarks, fetchLikes, if_neg hout, hp]
    · by_cases hout : out = ""
      · rw [hout] at hp; exact absurd hp (by rw [show jsonParse "" = none from rfl]; simp)
      · constructor <;>
          · simp only [fetchBookmarks, fetchLikes, if_neg hout, hp, coerceTweets]

/-- Witness for the amended C9: recovery from a failed process whose stdout
is a parseable array. -/
theorem fetch_failure_recovery_witness :
    fetchBookmarks [ExecOutcome.err "boom" (some "[]") none] = Except.ok (Json.arr []) :=
  (fetch_failure_recovery.2.1 "boom" "[]" none (Json.arr []) (Json.arr [])
    rfl rfl (by decide)).1

/-- Witness for the amended C1: a 4-character label passes validation and is
stored cleaned; a 1-character label fails validation and yields the
fallback. -/
theorem categorize_label_validation_witness :
    lookupStr (categorizeBatch [mkTweet "t1", mkTweet "t2"] []
        (some "\x7b\"t1\": \"Tech\", \"t2\": \"a\"\x7d")) "t1" = some (cleanupCategory "Tech") ∧
    lookupStr (categorizeBatch [mkTweet "t1", mkTweet "t2"] []
        (some "\x7b\"t1\": \"Tech\", \"t2\": \"a\"\x7d")) "t2" =
      some config.uncategorizedFolder := by
  have h1 := categorize_label_validation [mkTweet "t1", mkTweet "t2"] []
    "\x7b\"t1\": \"Tech\", \"t2\": \"a\"\x7d"
    (Json.obj [("t1", Json.str "Tech"), ("t2", Json.str "a")]) (mkTweet "t1")
    rfl (by intro h; cases h) (by simp)
  have h2 := categorize_label_validation [mkTweet "t1", mkTweet "t2"] []
    "\x7b\"t1\": \"Tech\", \"t2\": \"a\"\x7d"
    (Json.obj [("t1", Json.str "Tech"), ("t2", Json.str "a")]) (mkTweet "t2")
    rfl (by intro h; cases h) (by simp)
  exact ⟨h1.2.1 "Tech" rfl (by decide), h2.2.2.1 "a" rfl (by decide)⟩

/-- C8 counterexample: a vault with a single document already sitting in its
assigned category folder.  The first run moves 0 files; the second run counts
1 file "already in place" — so the second run's already-in-place count does
not equal the first run's moved count, refuting the claim's equality. -/
theorem organizer_idempotence_cex :
    (organizerRun "/v" [some "\x7b\"1\": \"Tech\"\x7d"] false
        ⟨[⟨"/v/Tech", "a.md", sampleNoteContent⟩], ["/v/Tech"]⟩).2.moved = 0 ∧
    (organizerRun "/v" [some "\x7b\"1\": \"Tech\"\x7d"] false
        (organizerRun "/v" [some "\x7b\"1\": \"Tech\"\x7d"] false
          ⟨[⟨"/v/Tech", "a.md", sampleNoteContent⟩], ["/v/Tech"]⟩).1).2.skipped = 1 ∧
    (organizerRun "/v" [some "\x7b\"1\": \"Tech\"\x7d"] false
        (organizerRun "/v" [some "\x7b\"1\": \"Tech\"\x7d"] false
          ⟨[⟨"/v/Tech", "a.md", sampleNoteContent⟩], ["/v/Tech"]⟩).1).2.skipped ≠
      (organizerRun "/v" [some "\x7b\"1\": \"Tech\"\x7d"] false
        ⟨[⟨"/v/Tech", "a.md", sampleNoteContent⟩], ["/v/Tech"]⟩).2.moved := by
  refine ⟨rfl, rfl, ?_⟩
  intro h
  rw [show (organizerRun "/v" [some "\x7b\"1\": \"Tech\"\x7d"] false
      (organizerRun "/v" [some "\x7b\"1\": \"Tech\"\x7d"] false
        ⟨[⟨"/v/Tech", "a.md", sampleNoteContent⟩], ["/v/Tech"]⟩).1).2.skipped = 1 from rfl,
    show (organizerRun "/v" [some "\x7b\"1\": \"Tech\"\x7d"] false
      ⟨[⟨"/v/Tech", "a.md", sampleNoteContent⟩], ["/v/Tech"]⟩).2.moved = 0 from rfl] at h
  exact Nat.one_ne_zero h

/-! ### Toolkit for the organizer idempotence proof -/

/-- Updating a file's directory to its own value is the identity. -/
theorem vfile_dir_eta (f : VFile) : ({ f with dir := f.dir } : VFile) = f := rfl

/-- A leading segment is an actual prefix. -/
theorem isLeadOf_exists : ∀ (p l : List Char), isLeadOf p l = true → ∃ s, l = p ++ s := by
  intro p
  induction p with
  | nil => exact fun l _ => ⟨l, rfl⟩
  | cons c ps ih =>
    intro l h
    cases l with
    | nil => simp [isLeadOf] at h
    | cons d ls =>
      simp only [isLeadOf, decide_eq_true_eq] at h
      obtain ⟨rfl, h2⟩ := h
      obtain ⟨s, rfl⟩ := ih ls h2
      exact ⟨s, rfl⟩

/-- A leading segment is no longer than the list. -/
theorem isLeadOf_length (p l : List Char) (h : isLeadOf p l = true) : p.length ≤ l.length := by
  obtain ⟨s, rfl⟩ := isLeadOf_exists p l h
  simp

/-- `splitOnChar` never yields the empty list. -/
theorem splitOnChar_ne_nil : ∀ (sep : Char) (l : List Char), splitOnChar sep l ≠ [] := by
  intro sep l
  cases l with
  | nil => simp [splitOnChar]
  | cons c r =>
    simp only [splitOnChar]
    split
    · simp
    · split <;> simp

/-- Splitting a separator-free list yields that list alone. -/
theorem splitOnChar_of_not_mem :
    ∀ (sep : Char) (l : List Char), sep ∉ l → splitOnChar sep l = [l] := by
  intro sep l
  induction l with
  | nil => intro _; rfl
  | cons c r ih =>
    intro h
    have hc : ¬ c = sep := fun hcc => h (hcc ▸ List.mem_cons_self c r)
    have hr := ih (fun hm => h (List.mem_cons_of_mem c hm))
    simp only [splitOnChar, hr, if_neg hc]

/-- Splitting a list that opens with a separator-free segment followed by the
separator peels that segment off. -/
theorem splitOnChar_sep_cons :
    ∀ (sep : Char) (e rest : List Char), sep ∉ e →
      splitOnChar sep (e ++ sep :: rest) = e :: splitOnChar sep rest := by
  intro sep e
  induction e with
  | nil => intro rest _; simp [splitOnChar]
  | cons a e2 ih =>
    intro rest h
    have ha : ¬ a = sep := fun haa => h (haa ▸ List.mem_cons_self a e2)
    have he := ih rest (fun hm => h (List.mem_cons_of_mem a hm))
    simp only [List.cons_append, splitOnChar, List.append_eq, he, if_neg ha]

/-- A one-element split means the list was separator-free. -/
theorem splitOnChar_single :
    ∀ (sep : Char) (l e : List Char), splitOnChar sep l = [e] → l = e ∧ sep ∉ l := by
  intro sep l
  induction l with
  | nil =>
    intro e h
    simp only [splitOnChar, List.cons.injEq] at h
    exact ⟨h.1, by simp⟩
  | cons c r ih =>
    intro e h
    simp only [splitOnChar] at h
    split at h
    · obtain ⟨_, h2⟩ := List.cons.inj h
      exact absurd h2 (splitOnChar_ne_nil sep r)
    · rename_i hc
      split at h
      · rename_i hnil
        exact absurd hnil (splitOnChar_ne_nil sep r)
      · rename_i h0 t hr
        obtain ⟨h1, h2⟩ := List.cons.inj h
        subst h2
        obtain ⟨rfl, hnm⟩ := ih h0 hr
        refine ⟨h1, ?_⟩
        intro hm
        rcases List.mem_cons.1 hm with rfl | hm2
        · exact hc rfl
        · exact hnm hm2

/-- Strings with character data of different lengths differ. -/
theorem str_ne_of_data_len {a b : String} (h : a.data.length ≠ b.data.length) : a ≠ b :=
  fun hab => h (congrArg (fun s => s.data.length) hab)

/-- Compute `relComponents` from the structural decomposition of the path. -/
theorem relComponents_structure (p d : String) (s : List Char)
    (h : d.data = p.data ++ '/' :: s) :
    relComponents p d = some (splitOnChar '/' s) := by
  have hne : d ≠ p := str_ne_of_data_len (by rw [h]; simp)
  have hdata : d.data = (p ++ "/").data ++ s := by
    rw [h, strData_append]
    simp
  have hlead : isLeadOf (p ++ "/").data d.data = true := by
    rw [hdata]; exact isLeadOf_self_append _ _
  have hdrop : d.data.drop (p.data.length + 1) = s := by
    rw [hdata]
    rw [show p.data.length + 1 = (p ++ "/").data.length by simp [strData_append]]
    exact List.drop_left _ _
  simp only [relComponents, if_neg hne, hlead, if_true, hdrop]

/-- The relative components of a freshly joined child directory. -/
theorem relComponents_join (p s : String) (h : '/' ∉ s.data) :
    relComponents p (joinP p s) = some [s.data] := by
  rw [relComponents_structure p (joinP p s) s.data (by simp [joinP, strData_append])]
  rw [splitOnChar_of_not_mem '/' s.data h]

/-- A single-component relative position determines the path's structure. -/
theorem relComponents_single (p d : String) (e : List Char)
    (h : relComponents p d = some [e]) :
    d.data = p.data ++ '/' :: e ∧ '/' ∉ e := by
  unfold relComponents at h
  split at h
  · simp at h
  · split at h
    · rename_i hne hlead
      obtain ⟨s, hs⟩ := isLeadOf_exists _ _ hlead
      have hdrop : d.data.drop (p.data.length + 1) = s := by
        rw [hs]
        rw [show p.data.length + 1 = (p ++ "/").data.length by simp [strData_append]]
        exact List.drop_left _ _
      rw [hdrop] at h
      obtain ⟨rfl, hnm⟩ := splitOnChar_single '/' s e (Option.some.inj h)
      constructor
      · rw [hs, strData_append]
        simp
      · exact hnm
    · exact absurd h (by simp)

/-- Filtering by `p` after filtering by a weaker `q` is filtering by `p`. -/
theorem filter_filter_of_imp {α : Type} (p q : α → Bool) :
    ∀ l : List α, (∀ x ∈ l, p x = true → q x = true) →
      (l.filter q).filter p = l.filter p := by
  intro l
  induction l with
  | nil => intro _; rfl
  | cons a rest ih =>
    intro h
    have hrest := ih (fun x hx => h x (List.mem_cons_of_mem a hx))
    by_cases hq : q a = true
    · by_cases hp : p a = true
      · simp [List.filter_cons, hp, hq, hrest]
      · simp [List.filter_cons, hp, hq, hrest]
    · have hp : ¬ p a = true := fun hp => hq (h a (List.mem_cons_self a rest) hp)
      simp [List.filter_cons, hq, hp, hrest]

/-- Filter commutes with a map that preserves the predicate pointwise. -/
theorem filter_map_comm {α : Type} (g : α → α) (pred : α → Bool) :
    ∀ l : List α, (∀ x ∈ l, pred (g x) = pred x) →
      (l.map g).filter pred = (l.filter pred).map g := by
  intro l
  induction l with
  | nil => intro _; rfl
  | cons a rest ih =>
    intro h
    have hrest := ih (fun x hx => h x (List.mem_cons_of_mem a hx))
    have ha := h a (List.mem_cons_self a rest)
    by_cases hp : pred a = true
    · have hga : pred (g a) = true := ha.trans hp
      simp [List.map_cons, List.filter_cons, hp, hga, hrest]
    · have hga : ¬ pred (g a) = true := fun hg => hp (ha.symm.trans hg)
      simp [List.map_cons, List.filter_cons, hp, hga, hrest]

/-- With duplicate-free names, a name determines the file. -/
theorem mem_name_inj :
    ∀ (files : List VFile), (files.map VFile.name).Nodup →
      ∀ f ∈ files, ∀ g2 ∈ files, f.name = g2.name → f = g2 := by
  intro files
  induction files with
  | nil => intro _ f hf; cases hf
  | cons a rest ih =>
    intro h f hf g2 hg hfg
    simp only [List.map_cons, List.nodup_cons] at h
    rcases List.mem_cons.1 hf with rfl | hf2
    · rcases List.mem_cons.1 hg with rfl | hg2
      · rfl
      · exfalso
        apply h.1
        rw [hfg]
        exact List.mem_map_of_mem VFile.name hg2
    · rcases List.mem_cons.1 hg with rfl | hg2
      · exfalso
        apply h.1
        rw [← hfg]
        exact List.mem_map_of_mem VFile.name hf2
      · exact ih h.2 f hf2 g2 hg2 hfg

/-- With duplicate-free note names, searching a member note's name finds that
note. -/
theorem find?_name_self :
    ∀ (notes : List ONote) (n : ONote), (notes.map ONote.name).Nodup → n ∈ notes →
      List.find? (fun m => m.name = n.name) notes = some n := by
  intro notes
  induction notes with
  | nil => intro n _ hn; cases hn
  | cons a rest ih =>
    intro n h hn
    simp only [List.map_cons, List.nodup_cons] at h
    rcases List.mem_cons.1 hn with rfl | hn2
    · exact List.find?_cons_of_pos _ (by simp)
    · have hne : ¬ (a.name = n.name) := by
        intro he
        apply h.1
        rw [he]
        exact List.mem_map_of_mem ONote.name hn2
      rw [List.find?_cons_of_neg _ (by simp [hne])]
      exact ih n h.2 hn2

/-- Every parsed note records the location and content of a file of the
parsed list. -/
theorem parseVaultNotes_mem :
    ∀ (fs : List VFile) (n : ONote), n ∈ (parseVaultNotes fs).1 →
      ∃ f ∈ fs, f.dir = n.dir ∧ f.name = n.name ∧ f.content = n.content := by
  intro fs
  induction fs with
  | nil => intro n hn; cases hn
  | cons f rest ih =>
    intro n hn
    simp only [parseVaultNotes] at hn
    cases hp : parseMarkdownFile f.content with
    | some p =>
      simp only [hp] at hn
      rcases List.mem_cons.1 hn with rfl | hn2
      · exact ⟨f, List.mem_cons_self f rest, rfl, rfl, rfl⟩
      · obtain ⟨f2, hf2, h⟩ := ih n hn2
        exact ⟨f2, List.mem_cons_of_mem f hf2, h⟩
    | none =>
      simp only [hp] at hn
      obtain ⟨f2, hf2, h⟩ := ih n hn
      exact ⟨f2, List.mem_cons_of_mem f hf2, h⟩

/-- The parsed notes' names form a sublist of the parsed files' names. -/
theorem parseVaultNotes_names_sublist :
    ∀ fs : List VFile,
      List.Sublist ((parseVaultNotes fs).1.map ONote.name) (fs.map VFile.name) := by
  intro fs
  induction fs with
  | nil => exact List.Sublist.refl _
  | cons f rest ih =>
    simp only [parseVaultNotes, List.map_cons]
    cases hp : parseMarkdownFile f.content with
    | some p =>
      simp only [hp]
      exact List.Sublist.cons₂ f.name ih
    | none =>
      simp only [hp]
      exact List.Sublist.cons f.name ih

/-- Re-parsing after a directory-only relocation yields the same notes with
their directories relocated, and the same error count. -/
theorem parseVaultNotes_map_dirD (D : String → String → String) :
    ∀ fs : List VFile,
      parseVaultNotes (fs.map (fun f => { f with dir := D f.name f.dir })) =
        ((parseVaultNotes fs).1.map (fun n => { n with dir := D n.name n.dir }),
          (parseVaultNotes fs).2) := by
  intro fs
  induction fs with
  | nil => rfl
  | cons f rest ih =>
    simp only [List.map_cons, parseVaultNotes, ih]
    cases hp : parseMarkdownFile f.content with
    | some p => simp only [hp, List.map_cons]
    | none => simp only [hp]

/-- `singleMove` preserves names. -/
theorem map_name_singleMove (name target : String) (files : List VFile) :
    (files.map (singleMove name target)).map VFile.name = files.map VFile.name := by
  rw [List.map_map]
  apply List.map_congr_left
  intro f _
  simp only [Function.comp, singleMove]
  split <;> rfl

/-- Dropping leading whitespace keeps only characters of the input. -/
theorem mem_dropWsL : ∀ (l : List Char), ∀ c ∈ dropWsL l, c ∈ l := by
  intro l
  induction l with
  | nil => intro c hc; cases hc
  | cons a r ih =>
    intro c hc
    simp only [dropWsL] at hc
    split at hc
    · exact List.mem_cons_of_mem a (ih c hc)
    · exact hc

/-- Whitespace collapsing yields only spaces and characters of the input. -/
theorem mem_collapseWs : ∀ (l : List Char), ∀ c ∈ collapseWs l, c = ' ' ∨ c ∈ l := by
  intro l
  induction l with
  | nil => intro c hc; cases hc
  | cons a r ih =>
    cases r with
    | nil =>
      intro c hc
      simp only [collapseWs, List.mem_singleton] at hc
      subst hc
      by_cases hw : isJsWs a = true
      · left; rw [if_pos hw]
      · right; rw [if_neg hw]; exact List.mem_cons_self a []
    | cons d r2 =>
      intro c hc
      simp only [collapseWs] at hc
      split at hc
      · rcases ih c hc with h | h
        · exact Or.inl h
        · exact Or.inr (List.mem_cons_of_mem a h)
      · rcases List.mem_cons.1 hc with rfl | h2
        · by_cases hw : isJsWs a = true
          · left; rw [if_pos hw]
          · right; rw [if_neg hw]; exact List.mem_cons_self a (d :: r2)
        · rcases ih c h2 with h | h
          · exact Or.inl h
          · exact Or.inr (List.mem_cons_of_mem a h)

/-- Trimming keeps only characters of the input. -/
theorem mem_jsTrim (s : String) (c : Char) (h : c ∈ (jsTrim s).data) : c ∈ s.data := by
  simp only [jsTrim] at h
  have h1 := mem_dropWsL _ c h
  rw [List.mem_reverse] at h1
  have h2 := mem_dropWsL _ c h1
  rw [List.mem_reverse] at h2
  exact h2

/-- A sanitized filename never contains a path separator. -/
theorem sanitize_no_slash (s : String) : '/' ∉ (sanitizeFilename s).data := by
  intro h
  simp only [sanitizeFilename, jsTake] at h
  have h1 := List.mem_of_mem_take h
  have h2 := mem_jsTrim _ _ h1
  rcases mem_collapseWs _ _ h2 with he | hm
  · exact absurd he (by decide)
  · have hp := List.of_mem_filter hm
    exact absurd hp (by decide)

/-- The relative components of a note's target folder: the single sanitized
category segment. -/
theorem relComponents_target (p : String) (cats : List (String × String)) (n : ONote) :
    relComponents p (targetFolder p cats n) =
      some [(sanitizeFilename (jsGetOr cats n.id config.uncategorizedFolder)).data] := by
  unfold targetFolder
  exact relComponents_join p _ (sanitize_no_slash _)

/-- A segment that does not start with a dot is not hidden. -/
theorem notHidden_of_notStarts (l : List Char) (h : jsStartsWith ⟨l⟩ "." = false) :
    isHiddenComp l = false := by
  cases l with
  | nil => rfl
  | cons c r =>
    have h2 : isLeadOf ['.'] (c :: r) = false := h
    simp only [isLeadOf] at h2
    simp at h2
    simp only [isHiddenComp, decide_eq_false_iff_not]
    exact fun he => h2 he.symm

/-- The directory inventory plays no role in the file-selection branch. -/
theorem ovault_if_files (c : Prop) [Decidable c] (v : OVault) (d : List String) :
    (if c then ({ v with dirs := d } : OVault) else v).files = v.files := by
  split <;> rfl

/-- A file relocated to a note's target folder still passes the enumeration
test, provided its name does and the sanitized category is not hidden. -/
theorem enumPred_target (p : String) (f : VFile) (cats : List (String × String)) (n : ONote)
    (hname : jsStartsWith f.name "." = false) (hmd : jsEndsWith f.name ".md" = true)
    (h3 : jsStartsWith (sanitizeFilename (jsGetOr cats n.id config.uncategorizedFolder)) "."
      = false) :
    enumPred p { f with dir := targetFolder p cats n } = true := by
  show (match relComponents p (targetFolder p cats n) with
    | some comps =>
      (comps.all (fun c => ¬ isHiddenComp c) ∧ ¬ jsStartsWith f.name "." = true ∧
        jsEndsWith f.name ".md" = true : Bool)
    | none => false) = true
  rw [relComponents_target p cats n]
  have hh : isHiddenComp (sanitizeFilename
      (jsGetOr cats n.id config.uncategorizedFolder)).data = false :=
    notHidden_of_notStarts _ h3
  simp [hh, hname, hmd]

/-- Extraction of the name conditions from a passed enumeration test. -/
theorem enumPred_name (p : String) (f : VFile) (h : enumPred p f = true) :
    jsStartsWith f.name "." = false ∧ jsEndsWith f.name ".md" = true := by
  unfold enumPred at h
  split at h
  · simp only [decide_eq_true_eq] at h
    exact ⟨by simpa using h.2.1, h.2.2⟩
  · exact absurd h (by simp)

/-- Extraction of the directory conditions from a passed enumeration test. -/
theorem enumPred_dir (p : String) (f : VFile) (h : enumPred p f = true) :
    ∃ comps, relComponents p f.dir = some comps ∧
      ∀ c ∈ comps, isHiddenComp c = false := by
  unfold enumPred at h
  split at h
  · rename_i comps hc
    simp only [decide_eq_true_eq] at h
    refine ⟨comps, hc, ?_⟩
    intro c hcm
    have := List.all_eq_true.1 h.1 c hcm
    simpa using this
  · exact absurd h (by simp)

/-- The move summary over no notes is the identity. -/
theorem applyMoves_nil (p : String) (cats : List (String × String)) (files : List VFile) :
    applyMoves p cats [] files = files := by
  unfold applyMoves
  calc files.map (fun f => { f with dir := movedDir p cats [] f.name f.dir })
      = files.map id := List.map_congr_left (fun f _ => vfile_dir_eta f)
    _ = files := List.map_id files

/-- The move summary peels off its head note as one `singleMove`, when the
head's name does not recur. -/
theorem applyMoves_cons (p : String) (cats : List (String × String)) (n : ONote)
    (rest : List ONote) (files : List VFile) (hnn : n.name ∉ rest.map ONote.name) :
    applyMoves p cats (n :: rest) files =
      applyMoves p cats rest (files.map (singleMove n.name (targetFolder p cats n))) := by
  unfold applyMoves
  rw [List.map_map]
  apply List.map_congr_left
  intro f _
  simp only [Function.comp, singleMove]
  by_cases hf : f.name = n.name
  · rw [if_pos hf]
    have h1 : movedDir p cats (n :: rest) f.name f.dir = targetFolder p cats n := by
      unfold movedDir
      rw [List.find?_cons_of_pos _ (by simp [hf])]
    have h2 : movedDir p cats rest f.name (targetFolder p cats n) = targetFolder p cats n := by
      have hnone : List.find? (fun m => m.name = f.name) rest = none := by
        apply List.find?_eq_none.2
        intro m hm
        simp only [decide_eq_true_eq]
        intro he
        exact hnn (hf ▸ he ▸ List.mem_map_of_mem ONote.name hm)
      unfold movedDir
      rw [hnone]
    dsimp only
    rw [h1, h2]
  · rw [if_neg hf]
    have h3 : movedDir p cats (n :: rest) f.name f.dir = movedDir p cats rest f.name f.dir := by
      unfold movedDir
      rw [List.find?_cons_of_neg _ (by simp; exact fun he => hf he.symm)]
    rw [h3]

/-- With duplicate-free names, a rename out of place acts as the
corresponding `singleMove` on every file. -/
theorem fsRename_singleMove (files : List VFile) (hnn : (files.map VFile.name).Nodup)
    (f0 : VFile) (hf0 : f0 ∈ files) (t : String) (hne : ¬ f0.dir = t) :
    fsRename files f0.dir f0.name t = files.map (singleMove f0.name t) := by
  unfold fsRename
  rw [if_neg hne]
  have hfilter : files.filter (fun f => ¬ (f.dir = t ∧ f.name = f0.name)) = files := by
    apply List.filter_eq_self.2
    intro f hf
    simp only [decide_eq_true_eq]
    intro hc
    have : f = f0 := mem_name_inj files hnn f hf f0 hf0 hc.2
    exact hne (this ▸ hc.1)
  rw [hfilter]
  apply List.map_congr_left
  intro f hf
  unfold singleMove
  by_cases hn : f.name = f0.name
  · have heq : f = f0 := mem_name_inj files hnn f hf f0 hf0 hn
    subst heq
    simp
  · simp [hn]

/-- The file-list effect of a non-dry `moveToCategory`: the identity when the
file is already in its category folder, one rename otherwise. -/
theorem moveToCategory_files (fileDir fileName category basePath : String) (v : OVault) :
    (moveToCategory fileDir fileName category basePath false v).1.files =
      if fileDir = joinP basePath (sanitizeFilename category) then v.files
      else fsRename v.files fileDir fileName (joinP basePath (sanitizeFilename category)) := by
  unfold moveToCategory
  by_cases hdir : fileDir = joinP basePath (sanitizeFilename category)
  · rw [if_pos hdir, if_pos hdir]
  · rw [if_neg hdir, if_neg (by simp), if_neg hdir]
    dsimp only
    rw [ovault_if_files]

/-- The non-dry move phase, with duplicate-free file names and every note
located at an actual file, transforms the file list exactly as the move
summary `applyMoves` describes. -/
theorem organizeMoves_files_spec (p : String) (cats : List (String × String)) :
    ∀ (notes : List ONote) (v : OVault),
      (v.files.map VFile.name).Nodup →
      (notes.map ONote.name).Nodup →
      (∀ n ∈ notes, ∃ f ∈ v.files, f.dir = n.dir ∧ f.name = n.name) →
      (organizeMoves p cats false notes v).1.files = applyMoves p cats notes v.files := by
  intro notes
  induction notes with
  | nil =>
    intro v _ _ _
    rw [applyMoves_nil]
    rfl
  | cons n rest ih =>
    intro v hfile hnote hloc
    obtain ⟨f0, hf0, hf0d, hf0n⟩ := hloc n (List.mem_cons_self n rest)
    simp only [List.map_cons, List.nodup_cons] at hnote
    rw [applyMoves_cons p cats n rest v.files hnote.1]
    show (organizeMoves p cats false rest (moveToCategory n.dir n.name (jsGetOr cats n.id config.uncategorizedFolder) p false (if ¬ false = true ∧ ¬ existsDir v (joinP p (sanitizeFilename (jsGetOr cats n.id config.uncategorizedFolder))) = true then { v with dirs := joinP p (sanitizeFilename (jsGetOr cats n.id config.uncategorizedFolder)) :: v.dirs } else v)).1).1.files = _
    have hv1f : (if ¬ false = true ∧ ¬ existsDir v (joinP p (sanitizeFilename (jsGetOr cats n.id config.uncategorizedFolder))) = true then { v with dirs := joinP p (sanitizeFilename (jsGetOr cats n.id config.uncategorizedFolder)) :: v.dirs } else v).files = v.files := ovault_if_files _ v _
    have hmv : (moveToCategory n.dir n.name (jsGetOr cats n.id config.uncategorizedFolder) p false (if ¬ false = true ∧ ¬ existsDir v (joinP p (sanitizeFilename (jsGetOr cats n.id config.uncategorizedFolder))) = true then { v with dirs := joinP p (sanitizeFilename (jsGetOr cats n.id config.uncategorizedFolder)) :: v.dirs } else v)).1.files = v.files.map (singleMove n.name (targetFolder p cats n)) := by
      rw [moveToCategory_files, hv1f]
      by_cases hdir : n.dir = joinP p
          (sanitizeFilename (jsGetOr cats n.id config.uncategorizedFolder))
      · rw [if_pos hdir]
        symm
        calc v.files.map (singleMove n.name (targetFolder p cats n))
            = v.files.map id := by
              apply List.map_congr_left
              intro f hf
              unfold singleMove
              by_cases hfn : f.name = n.name
              · rw [if_pos hfn]
                have heq : f = f0 := mem_name_inj v.files hfile f hf f0 hf0 (hfn.trans hf0n.symm)
                subst heq
                rw [show targetFolder p cats n = f.dir from (hf0d.trans hdir).symm]
                exact vfile_dir_eta f
              · rw [if_neg hfn]; rfl
          _ = v.files := List.map_id v.files
      · rw [if_neg hdir]
        have hsrc : fsRename v.files n.dir n.name
            (joinP p (sanitizeFilename (jsGetOr cats n.id config.uncategorizedFolder))) =
            fsRename v.files f0.dir f0.name (targetFolder p cats n) := by
          rw [hf0d, hf0n]
          rfl
        rw [hsrc, fsRename_singleMove v.files hfile f0 hf0 (targetFolder p cats n)
          (by rw [hf0d]; exact hdir), hf0n]
    have hnames2 : ((v.files.map (singleMove n.name (targetFolder p cats n))).map
        VFile.name).Nodup := by
      rw [map_name_singleMove]
      exact hfile
    have hloc2 : ∀ m ∈ rest, ∃ f ∈ v.files.map (singleMove n.name (targetFolder p cats n)),
        f.dir = m.dir ∧ f.name = m.name := by
      intro m hm
      obtain ⟨g0, hg0, hg0d, hg0n⟩ := hloc m (List.mem_cons_of_mem n hm)
      refine ⟨g0, ?_, hg0d, hg0n⟩
      have hgn : ¬ g0.name = n.name := by
        intro he
        exact hnote.1 (he ▸ hg0n ▸ List.mem_map_of_mem ONote.name hm)
      have : singleMove n.name (targetFolder p cats n) g0 = g0 := by
        unfold singleMove
        rw [if_neg hgn]
      exact this ▸ List.mem_map_of_mem _ hg0
    rcases hMV : moveToCategory n.dir n.name (jsGetOr cats n.id config.uncategorizedFolder) p false (if ¬ false = true ∧ ¬ existsDir v (joinP p (sanitizeFilename (jsGetOr cats n.id config.uncategorizedFolder))) = true then { v with dirs := joinP p (sanitizeFilename (jsGetOr cats n.id config.uncategorizedFolder)) :: v.dirs } else v) with ⟨w2, b2⟩
    have hmv2 : w2.files = v.files.map (singleMove n.name (targetFolder p cats n)) := by
      have h := hmv
      rw [hMV] at h
      exact h
    show (organizeMoves p cats false rest w2).1.files = _
    have hrec := ih w2 (by rw [hmv2]; exact hnames2) hnote.2 (by rw [hmv2]; exact hloc2)
    rw [hrec, hmv2]

/-- The move phase's two tallies always add up to the number of notes. -/
theorem organizeMoves_count (p : String) (cats : List (String × String)) (d : Bool) :
    ∀ (notes : List ONote) (v : OVault),
      (organizeMoves p cats d notes v).2.1 + (organizeMoves p cats d notes v).2.2 =
        notes.length := by
  intro notes
  induction notes with
  | nil => intro v; rfl
  | cons n rest ih =>
    intro v
    simp only [organizeMoves]
    split
    · split
      · dsimp only
        rw [Nat.add_right_comm]
        exact congrArg (· + 1) (ih _)
      · dsimp only
        rw [← Nat.add_assoc]
        exact congrArg (· + 1) (ih _)
    · split
      · dsimp only
        rw [Nat.add_right_comm]
        exact congrArg (· + 1) (ih _)
      · dsimp only
        rw [← Nat.add_assoc]
        exact congrArg (· + 1) (ih _)

/-- When every note already sits in its target folder (which exists on disk),
the non-dry move phase is the identity: nothing moves, everything is counted
as "already in place". -/
theorem organizeMoves_inplace (p : String) (cats : List (String × String)) :
    ∀ (notes : List ONote) (v : OVault),
      (∀ n ∈ notes, n.dir = targetFolder p cats n ∧ ∃ f ∈ v.files, f.dir = n.dir) →
      organizeMoves p cats false notes v = (v, 0, notes.length) := by
  intro notes
  induction notes with
  | nil => intro v _; rfl
  | cons n rest ih =>
    intro v h
    obtain ⟨hd, f, hf, hfd⟩ := h n (List.mem_cons_self n rest)
    have hd2 : n.dir = joinP p (sanitizeFilename (jsGetOr cats n.id config.uncategorizedFolder)) := hd
    have hex : existsDir v (joinP p (sanitizeFilename (jsGetOr cats n.id config.uncategorizedFolder))) = true := by
      unfold existsDir
      simp only [decide_eq_true_eq]
      right
      rw [List.any_eq_true]
      exact ⟨f, hf, by rw [hfd, hd2]; exact decide_eq_true rfl⟩
    have hmvc : moveToCategory n.dir n.name (jsGetOr cats n.id config.uncategorizedFolder) p false v = (v, false) := by
      unfold moveToCategory
      rw [if_pos hd2]
    simp only [organizeMoves]
    rw [if_neg (by simp [hex]), hmvc]
    dsimp only
    rw [ih v (fun m hm => h m (List.mem_cons_of_mem n hm))]
    rfl

/-- A directory holding a non-hidden file of the subtree has a visible
entry. -/
theorem hasVisibleEntry_of_file_here (v : OVault) (f : VFile) (hf : f ∈ v.files)
    (hname : jsStartsWith f.name "." = false) :
    hasVisibleEntry v f.dir = true := by
  unfold hasVisibleEntry
  simp only [decide_eq_true_eq]
  left
  rw [List.any_eq_true]
  refine ⟨f, hf, ?_⟩
  simp [hname]

/-- A directory over which some file of the subtree sits visibly has a
visible entry. -/
theorem hasVisibleEntry_of_file_under (v : OVault) (f : VFile) (hf : f ∈ v.files)
    (d : String) (hvis : topCompVisible d f.dir = true) :
    hasVisibleEntry v d = true := by
  unfold hasVisibleEntry
  simp only [decide_eq_true_eq]
  left
  rw [List.any_eq_true]
  refine ⟨f, hf, ?_⟩
  simp [hvis]

/-- Computing `topCompVisible` from the structural decomposition of the inner
path. -/
theorem topCompVisible_of_structure (d q2 : String) (s : List Char)
    (h : q2.data = d.data ++ '/' :: s) (h0 : List Char) (t0 : List (List Char))
    (hsplit : splitOnChar '/' s = h0 :: t0) (hh : isHiddenComp h0 = false) :
    topCompVisible d q2 = true := by
  unfold topCompVisible
  rw [relComponents_structure d q2 s h, hsplit]
  simp [hh]

/-- The empty-directory cleanup never removes a file that the organizer
enumerates: the enumerated set of the subtree is preserved exactly. -/
theorem cleanup_enum (p : String) (v : OVault) :
    enumerateFiles p (cleanupEmptyDirs p v).1 = enumerateFiles p v := by
  unfold enumerateFiles cleanupEmptyDirs
  dsimp only
  apply filter_filter_of_imp
  intro f hf hpred
  simp only [decide_eq_true_eq]
  intro hor
  rcases hor with hc | hany
  · have hmem := List.mem_of_elem_eq_true hc
    have h2 := List.mem_filter.1 hmem
    have hvis : hasVisibleEntry v f.dir = false := by simpa using h2.2
    have hsee := hasVisibleEntry_of_file_here v f hf (enumPred_name p f hpred).1
    rw [hvis] at hsee
    exact Bool.false_ne_true hsee
  · rw [List.any_eq_true] at hany
    obtain ⟨d, hd, hlead⟩ := hany
    have hdm := List.mem_filter.1 hd
    have hvis : hasVisibleEntry v d = false := by simpa using hdm.2
    have hcand := (List.mem_filter.1 hdm.1).2
    split at hcand
    · rename_i e heq
      have hhide : isHiddenComp e = false := by simpa using hcand
      obtain ⟨hdd, hslash⟩ := relComponents_single p d e heq
      obtain ⟨s, hs⟩ := isLeadOf_exists _ _ hlead
      have hfd : f.dir.data = d.data ++ '/' :: s := by
        rw [hs, strData_append]
        rw [show ("/" : String).data = ['/'] from rfl, List.append_assoc]
        rfl
      have hfd2 : f.dir.data = p.data ++ '/' :: (e ++ '/' :: s) := by
        rw [hfd, hdd]
        simp
      obtain ⟨comps0, hc0, hall⟩ := enumPred_dir p f hpred
      have hc1 : relComponents p f.dir = some (e :: splitOnChar '/' s) := by
        rw [relComponents_structure p f.dir (e ++ '/' :: s) hfd2,
          splitOnChar_sep_cons '/' e s hslash]
      have hcomps : comps0 = e :: splitOnChar '/' s := by
        rw [hc0] at hc1
        exact Option.some.inj hc1
      cases hsp : splitOnChar '/' s with
      | nil => exact absurd hsp (splitOnChar_ne_nil '/' s)
      | cons h0 t0 =>
        have hh0mem : h0 ∈ comps0 := by
          rw [hcomps, hsp]
          exact List.mem_cons_of_mem e (List.mem_cons_self h0 t0)
        have hh0 : isHiddenComp h0 = false := hall h0 hh0mem
        have htv : topCompVisible d f.dir = true :=
          topCompVisible_of_structure d f.dir s hfd h0 t0 hsp hh0
        have hsee := hasVisibleEntry_of_file_under v f hf d htv
        rw [hvis] at hsee
        exact Bool.false_ne_true hsee
    · exact absurd hcand (by simp)

/-- Chunking commutes with mapping over the elements. -/
theorem chunksAux_map {α β : Type} (g : α → β) (n : Nat) :
    ∀ (fuel : Nat) (l : List α),
      chunksAux n fuel (l.map g) = (chunksAux n fuel l).map (List.map g) := by
  intro fuel
  induction fuel with
  | zero => intro l; cases l <;> rfl
  | succ f2 ih =>
    intro l
    cases l with
    | nil => rfl
    | cons a as =>
      show (List.map g (a :: as)).take n :: chunksAux n f2 ((List.map g (a :: as)).drop n) =
        ((a :: as).take n :: chunksAux n f2 ((a :: as).drop n)).map (List.map g)
      rw [← List.map_take, ← List.map_drop, ih, List.map_cons]

/-- Zipping replies commutes with mapping over the batches. -/
theorem zipReplies_map {α β : Type} (g : List α → List β) :
    ∀ (bs : List (List α)) (rs : List (Option String)),
      zipReplies (bs.map g) rs = (zipReplies bs rs).map (fun pr => (g pr.1, pr.2)) := by
  intro bs
  induction bs with
  | nil => intro rs; cases rs <;> rfl
  | cons b bs2 ih =>
    intro rs
    cases rs with
    | nil => simp only [List.map_cons, zipReplies, ih]
    | cons r rs2 => simp only [List.map_cons, zipReplies, ih]

/-- The batch re-categorization reads only each note's id, text and author:
relocating the notes' directories changes nothing. -/
theorem computeAllCategories_dir_irrel (D : String → String → String)
    (notes : List ONote) (replies : List (Option String)) :
    computeAllCategories (notes.map (fun n => { n with dir := D n.name n.dir })) replies =
      computeAllCategories notes replies := by
  simp only [computeAllCategories, chunks, List.length_map]
  rw [chunksAux_map, zipReplies_map, List.foldl_map]
  have hfun : (fun (acc : List (String × String) × List String)
        (pr : List ONote × Option String) =>
      (fun acc2 (pr2 : List ONote × Option String) =>
        (categorizeBatch (pr2.1.map noteToTweet) acc2.2 pr2.2).foldl
          (fun acc3 kv =>
            (setAssoc acc3.1 kv.1 kv.2,
              if ¬ acc3.2.contains kv.2 ∧ kv.2 ≠ config.uncategorizedFolder then
                acc3.2 ++ [kv.2]
              else acc3.2))
          acc2) acc
        (pr.1.map (fun n => { n with dir := D n.name n.dir }), pr.2)) =
      (fun acc pr =>
        (categorizeBatch (pr.1.map noteToTweet) acc.2 pr.2).foldl
          (fun acc3 kv =>
            (setAssoc acc3.1 kv.1 kv.2,
              if ¬ acc3.2.contains kv.2 ∧ kv.2 ≠ config.uncategorizedFolder then
                acc3.2 ++ [kv.2]
              else acc3.2))
          acc) := by
    funext acc pr
    dsimp only
    rw [List.map_map,
      show (noteToTweet ∘ fun n => ({ n with dir := D n.name n.dir } : ONote)) = noteToTweet
        from funext (fun n => rfl)]
  rw [hfun]

/-- After the move phase, the enumerated files of the subtree are exactly the
previously enumerated files, each relocated by the move summary. -/
theorem enum_applyMoves (p : String) (cats : List (String × String)) (notes : List ONote)
    (v : OVault)
    (H1 : (v.files.map VFile.name).Nodup)
    (hmem : ∀ n ∈ notes, ∃ f ∈ enumerateFiles p v, f.dir = n.dir ∧ f.name = n.name)
    (H3 : ∀ n ∈ notes,
      jsStartsWith (sanitizeFilename (jsGetOr cats n.id config.uncategorizedFolder)) "."
        = false) :
    (applyMoves p cats notes v.files).filter (enumPred p) =
      (enumerateFiles p v).map
        (fun f => { f with dir := movedDir p cats notes f.name f.dir }) := by
  unfold applyMoves enumerateFiles
  apply filter_map_comm
  intro f hf
  cases hfind : notes.find? (fun n => n.name = f.name) with
  | none =>
    have hid : movedDir p cats notes f.name f.dir = f.dir := by
      unfold movedDir
      rw [hfind]
    rw [hid, vfile_dir_eta]
  | some n =>
    have hnn : n ∈ notes := List.mem_of_find?_eq_some hfind
    have hname : n.name = f.name := by
      have := List.find?_some hfind
      simpa using this
    obtain ⟨fe, hfe, hfed, hfen⟩ := hmem n hnn
    have hfev : fe ∈ v.files := List.mem_of_mem_filter hfe
    have heq : f = fe := mem_name_inj v.files H1 f hf fe hfev (hfen.trans hname).symm
    have hpredf : enumPred p f = true := by
      rw [heq]
      exact List.of_mem_filter hfe
    have hmove : movedDir p cats notes f.name f.dir = targetFolder p cats n := by
      unfold movedDir
      rw [hfind]
    rw [hmove, hpredf]
    obtain ⟨hns, hmd⟩ := enumPred_name p f hpredf
    exact enumPred_target p f cats n hns hmd (H3 n hnn)

/-- The non-dry organizer run, unfolded past its emptiness guards. -/
theorem organizerRun_spec (p : String) (replies : List (Option String)) (v : OVault)
    (hne : (parseVaultNotes (enumerateFiles p v)).1 ≠ []) :
    organizerRun p replies false v =
      ((cleanupEmptyDirs p (organizeMoves p
          (computeAllCategories (parseVaultNotes (enumerateFiles p v)).1 replies) false
          (parseVaultNotes (enumerateFiles p v)).1 v).1).1,
        ⟨(parseVaultNotes (enumerateFiles p v)).1.length,
          (parseVaultNotes (enumerateFiles p v)).2,
          (organizeMoves p (computeAllCategories (parseVaultNotes (enumerateFiles p v)).1
            replies) false (parseVaultNotes (enumerateFiles p v)).1 v).2.1,
          (organizeMoves p (computeAllCategories (parseVaultNotes (enumerateFiles p v)).1
            replies) false (parseVaultNotes (enumerateFiles p v)).1 v).2.2,
          (cleanupEmptyDirs p (organizeMoves p (computeAllCategories
            (parseVaultNotes (enumerateFiles p v)).1 replies) false
            (parseVaultNotes (enumerateFiles p v)).1 v).1).2⟩) := by
  have hfe : enumerateFiles p v ≠ [] := by
    intro h
    apply hne
    rw [h]
    rfl
  have h1 : (enumerateFiles p v).isEmpty = false := by
    cases he : enumerateFiles p v with
    | nil => exact absurd he hfe
    | cons a l => rfl
  have h2 : (parseVaultNotes (enumerateFiles p v)).1.isEmpty = false := by
    cases he : (parseVaultNotes (enumerateFiles p v)).1 with
    | nil => exact absurd he hne
    | cons a l => rfl
  simp only [organizerRun, h1, h2, Bool.false_eq_true, if_false]

/-- C8 (amended): running the organizer twice with the oracle returning the
same assignments both times, on a populated subtree whose files have pairwise
distinct basenames and whose assigned categories do not sanitize to hidden
folder names, preserves the enumerated document set across the second run
(no enumerated document created or destroyed), the second run moves zero
files, re-parses the same number of notes, and counts as "already in place"
the sum of the first run's moved and already-in-place counts — not the first
run's moved count alone, as the original claim stated. -/
theorem organizer_idempotence (p : String) (replies : List (Option String)) (v : OVault)
    (notes1 : List ONote) (cats1 : List (String × String))
    (run1 run2 : OVault × OrganizeStats)
    (hnotes : notes1 = (parseVaultNotes (enumerateFiles p v)).1)
    (hcats : cats1 = computeAllCategories notes1 replies)
    (hrun1 : run1 = organizerRun p replies false v)
    (hrun2 : run2 = organizerRun p replies false run1.1)
    (H1 : (v.files.map VFile.name).Nodup)
    (Hne : notes1 ≠ [])
    (H3 : ∀ n ∈ notes1,
      jsStartsWith (sanitizeFilename (jsGetOr cats1 n.id config.uncategorizedFolder)) "."
        = false) :
    enumerateFiles p run2.1 = enumerateFiles p run1.1 ∧
    run2.2.notesCount = run1.2.notesCount ∧
    run2.2.moved = 0 ∧
    run2.2.skipped = run1.2.moved + run1.2.skipped := by
  subst hrun2
  subst hrun1
  have hsub : List.Sublist ((parseVaultNotes (enumerateFiles p v)).1.map ONote.name)
      (v.files.map VFile.name) :=
    (parseVaultNotes_names_sublist (enumerateFiles p v)).trans
      ((List.filter_sublist v.files).map VFile.name)
  have hnamesN : (notes1.map ONote.name).Nodup := by
    rw [hnotes]
    exact List.Nodup.sublist hsub H1
  have hlocN : ∀ n ∈ notes1, ∃ f ∈ v.files, f.dir = n.dir ∧ f.name = n.name := by
    intro n hn
    rw [hnotes] at hn
    obtain ⟨f, hf, hd, hm, _⟩ := parseVaultNotes_mem _ n hn
    exact ⟨f, List.mem_of_mem_filter hf, hd, hm⟩
  have hmemE : ∀ n ∈ notes1, ∃ f ∈ enumerateFiles p v, f.dir = n.dir ∧ f.name = n.name := by
    intro n hn
    rw [hnotes] at hn
    obtain ⟨f, hf, hd, hm, _⟩ := parseVaultNotes_mem _ n hn
    exact ⟨f, hf, hd, hm⟩
  have hs1 := organizerRun_spec p replies v (by rw [← hnotes]; exact Hne)
  rw [← hnotes, ← hcats] at hs1
  have hmv1f : (organizeMoves p cats1 false notes1 v).1.files =
      applyMoves p cats1 notes1 v.files :=
    organizeMoves_files_spec p cats1 notes1 v H1 hnamesN hlocN
  have hEmv : enumerateFiles p (organizeMoves p cats1 false notes1 v).1 =
      (enumerateFiles p v).map
        (fun f => { f with dir := movedDir p cats1 notes1 f.name f.dir }) := by
    calc enumerateFiles p (organizeMoves p cats1 false notes1 v).1
        = (applyMoves p cats1 notes1 v.files).filter (enumPred p) := by
          show (organizeMoves p cats1 false notes1 v).1.files.filter (enumPred p) = _
          rw [hmv1f]
      _ = _ := enum_applyMoves p cats1 notes1 v H1 hmemE H3
  have hE2 : enumerateFiles p (organizerRun p replies false v).1 =
      (enumerateFiles p v).map
        (fun f => { f with dir := movedDir p cats1 notes1 f.name f.dir }) := by
    rw [hs1]
    show enumerateFiles p (cleanupEmptyDirs p (organizeMoves p cats1 false notes1 v).1).1 = _
    rw [cleanup_enum]
    exact hEmv
  have hN2 : parseVaultNotes (enumerateFiles p (organizerRun p replies false v).1) =
      (notes1.map (fun n => { n with dir := movedDir p cats1 notes1 n.name n.dir }),
        (parseVaultNotes (enumerateFiles p v)).2) := by
    rw [hE2]
    have h := parseVaultNotes_map_dirD (fun name dir => movedDir p cats1 notes1 name dir)
      (enumerateFiles p v)
    rw [← hnotes] at h
    exact h
  have hC2 : computeAllCategories (notes1.map
      (fun n => { n with dir := movedDir p cats1 notes1 n.name n.dir })) replies = cats1 := by
    have h := computeAllCategories_dir_irrel
      (fun name dir => movedDir p cats1 notes1 name dir) notes1 replies
    rw [← hcats] at h
    exact h
  have hIP : ∀ m ∈ notes1.map
      (fun n => { n with dir := movedDir p cats1 notes1 n.name n.dir }),
      m.dir = targetFolder p cats1 m ∧
        ∃ f ∈ (organizerRun p replies false v).1.files, f.dir = m.dir := by
    intro m hm
    obtain ⟨n, hn, rfl⟩ := List.mem_map.1 hm
    have hfind : List.find? (fun m2 => m2.name = n.name) notes1 = some n :=
      find?_name_self notes1 n hnamesN hn
    constructor
    · show movedDir p cats1 notes1 n.name n.dir = _
      unfold movedDir
      rw [hfind]
      rfl
    · have hmm2 : ({ n with dir := movedDir p cats1 notes1 n.name n.dir } : ONote) ∈
          (parseVaultNotes (enumerateFiles p (organizerRun p replies false v).1)).1 := by
        rw [hN2]
        exact List.mem_map_of_mem _ hn
      obtain ⟨f, hf, hfd, _, _⟩ := parseVaultNotes_mem _ _ hmm2
      exact ⟨f, List.mem_of_mem_filter hf, hfd⟩
  have hne2 : (parseVaultNotes (enumerateFiles p (organizerRun p replies false v).1)).1
      ≠ [] := by
    rw [hN2]
    show notes1.map _ ≠ []
    intro h
    exact Hne (List.map_eq_nil_iff.1 h)
  have hs2 := organizerRun_spec p replies (organizerRun p replies false v).1 hne2
  rw [hN2] at hs2
  dsimp only at hs2
  rw [hC2] at hs2
  rw [organizeMoves_inplace p cats1 _ _ hIP] at hs2
  dsimp only at hs2
  refine ⟨?_, ?_, ?_, ?_⟩
  · rw [hs2]
    show enumerateFiles p (cleanupEmptyDirs p (organizerRun p replies false v).1).1 = _
    exact cleanup_enum p (organizerRun p replies false v).1
  · rw [hs2, hs1]
    simp only [List.length_map]
  · rw [hs2]
  · rw [hs2, hs1]
    simp only [List.length_map]
    exact (organizeMoves_count p cats1 false notes1 v).symm

/-- Witness for the amended idempotence theorem on a concrete one-note
vault. -/
theorem organizer_idempotence_witness :
    (organizerRun "/v" [some "\x7b\"1\": \"Tech\"\x7d"] false
        (organizerRun "/v" [some "\x7b\"1\": \"Tech\"\x7d"] false
          ⟨[⟨"/v/Tech", "a.md", sampleNoteContent⟩], ["/v/Tech"]⟩).1).2.moved = 0 :=
  (organizer_idempotence "/v" [some "\x7b\"1\": \"Tech\"\x7d"]
    ⟨[⟨"/v/Tech", "a.md", sampleNoteContent⟩], ["/v/Tech"]⟩
    (parseVaultNotes (enumerateFiles "/v"
      ⟨[⟨"/v/Tech", "a.md", sampleNoteContent⟩], ["/v/Tech"]⟩)).1
    (computeAllCategories (parseVaultNotes (enumerateFiles "/v"
        ⟨[⟨"/v/Tech", "a.md", sampleNoteContent⟩], ["/v/Tech"]⟩)).1
      [some "\x7b\"1\": \"Tech\"\x7d"])
    (organizerRun "/v" [some "\x7b\"1\": \"Tech\"\x7d"] false
      ⟨[⟨"/v/Tech", "a.md", sampleNoteContent⟩], ["/v/Tech"]⟩)
    (organizerRun "/v" [some "\x7b\"1\": \"Tech\"\x7d"] false
      (organizerRun "/v" [some "\x7b\"1\": \"Tech\"\x7d"] false
        ⟨[⟨"/v/Tech", "a.md", sampleNoteContent⟩], ["/v/Tech"]⟩).1)
    rfl rfl rfl rfl (by decide) (by decide) (by decide)).2.2.1

end Synapse
